import Mathlib

/-!
Verification development for the `depi` dependency-injection container
(`src/depi/services.py`).

The Python engine is shallowly embedded as executable Lean functions:

* identities (Python `type` objects used as registry keys) are `Nat`;
* Python values are `PyVal` (`vnone` models Python `None`, `obj n` an
  object with identity `n`; object identity is modelled by an allocation
  counter `alloc` in the provider state);
* a registry is an insertion-ordered association list of registrations,
  mirroring a Python `dict[type, DependencyRegistration]`;
* factories are modelled by the closed `FactorySpec` type (return a fresh
  object / return `None` / return a fixed existing object / call
  `resolver.resolve(u)` on the resolver the container hands the factory —
  the `ServiceProvider` on the provider paths and `build`, the
  `ServiceScope` on the scope paths), covering the behaviours the
  specification's properties quantify over, including factories that
  construct other registrations through the container;
* raising is modelled by `Except DIError`; recursion that Python bounds
  only by the call stack is bounded by an explicit fuel argument, with
  `DIError.outOfFuel` distinct from every real error;
* a construction log (`Mech` events) instruments every factory call and
  every default `__init__` activation, modelling the specification's
  "instance-construction counter".

Sequentially, the double-checked-locking pattern of `ServiceProvider.resolve`
collapses to a single cache check, which is how it is written here.
Exceptions discard the in-flight state delta; every theorem that inspects a
post-state is conditioned on an `.ok` result, where the model agrees with
the Python exactly.
-/

namespace Depi

/-- Lifetime tags, `services.py` lines 27-33.  Python stores them as interned
strings; the registration API only ever produces these three. -/
inductive Lifetime
  | singleton
  | transient
  | scoped
  deriving DecidableEq, Repr

/-- A Python value as far as the container can observe it: `None`, or an
object with an identity.  `reg.instance is None` checks and the
`dict.get(key)`-returns-`None`-on-miss convention are both about this type. -/
inductive PyVal
  | vnone
  | obj (n : Nat)
  deriving DecidableEq, Repr

/-- A registered factory callable `(resolver) -> instance`.  `mkFresh`
allocates a new object, `retNone` returns `None`, `retConst k` returns an
already-existing object `k` (e.g. a captured global), and `resolveId u` is
`lambda r: r.resolve(u)` — a factory that resolves the registered identity
`u` through the resolver it is handed (the `ServiceProvider` in
`resolve`/`resolve_async`/`build`, the `ServiceScope` in scope
resolution), as in the specification's own
`factory=lambda p: p.resolve(...)` scenarios. -/
inductive FactorySpec
  | mkFresh
  | retNone
  | retConst (k : Nat)
  | resolveId (u : Nat)
  deriving DecidableEq, Repr

/-- Which construction mechanism ran: a registered factory, or default
construction through the implementation type's `__init__`. -/
inductive Mech
  | factoryCall
  | defaultCtor
  deriving DecidableEq, Repr

/-- `ConstructorDependency`, `services.py` lines 36-47: one constructor
parameter (its name and the identity its annotation requires). -/
structure ConstructorDependency where
  name : Nat
  dependency_type : Nat
  deriving DecidableEq, Repr

/-- `DependencyRegistration`, `services.py` lines 50-89.  `inst` models the
Python field `instance` (`instance` is a Lean keyword); `vnone` is its
`None` default.  Note that Python hashes and compares registrations by
`implementation_type` alone (lines 67-72); the DFS sets below honour that. -/
structure Registration where
  dependency_type : Nat
  implementation_type : Nat
  lifetime : Lifetime
  inst : PyVal
  factory : Option FactorySpec
  constructor_params : List ConstructorDependency
  deriving DecidableEq, Repr

/-- Errors.  Python raises bare `Exception`s with distinguishing messages;
the spec names them, and each constructor here corresponds to one message
shape.  `unregisteredDependency missing requester` carries the requester's
implementation-type name exactly when the two-argument form of
`_get_registered_dependency` raised (lines 390-406).  `outOfFuel` is the
model's own recursion bound, never a Python behaviour. -/
inductive DIError
  | missingDepAnnot (paramName : Nat) (typeName : Nat)
  | unregisteredDependency (missing : Nat) (requester : Option Nat)
  | cyclicDependency (implName : Nat)
  | scopeRequired
  | outOfFuel
  deriving DecidableEq, Repr

/-- Lookup in a registry dict (`self._dependency_lookup.get(_type)`). -/
def dictGet : List Registration → Nat → Option Registration
  | [], _ => Option.none
  | r :: rs, t => if r.dependency_type = t then some r else dictGet rs t

/-- Assignment `self._container[dependency_type] = reg` on an
insertion-ordered dict: replace in place if the key exists, else append. -/
def dictInsert : List Registration → Registration → List Registration
  | [], r => [r]
  | x :: xs, r =>
    if x.dependency_type = r.dependency_type then r :: xs else x :: dictInsert xs r

/-- `cache.get(_type)` on an instance cache: `None` on a miss, the stored
value (which may itself be `None`) on a hit — the two are indistinguishable,
exactly as in Python. -/
def cacheGet : List (Nat × PyVal) → Nat → PyVal
  | [], _ => PyVal.vnone
  | e :: es, t => if e.1 = t then e.2 else cacheGet es t

/-- `cache[_type] = instance` on an instance cache. -/
def cacheSet : List (Nat × PyVal) → Nat → PyVal → List (Nat × PyVal)
  | [], t, v => [(t, v)]
  | e :: es, t, v => if e.1 = t then (t, v) :: es else e :: cacheSet es t v

/-- Mutable state reachable from a `ServiceProvider`.  `registry` is the very
dict built by the `ServiceCollection` — `ServiceProvider.__init__` (line 270)
stores `service_collection.get_container()` without copying, so collection
and provider alias one registry.  `alloc` is the next fresh object identity;
`log` records every construction event (ghost instrumentation). -/
structure ProviderState where
  registry : List Registration
  singleton_instances : List (Nat × PyVal)
  alloc : Nat
  log : List (Mech × Nat)
  deriving DecidableEq, Repr

/-- `self.implementation_type(**kwargs)`: allocate a new object for
identity `t` and record the default construction. -/
def mkInstance (st : ProviderState) (t : Nat) : PyVal × ProviderState :=
  (PyVal.obj st.alloc,
    { st with alloc := st.alloc + 1, log := (Mech.defaultCtor, t) :: st.log })

mutual

/-- Run a registered factory `reg.factory(self)` for identity `t`, with the
`ServiceProvider` as the resolver: record the call and produce the
factory's value.  A `resolveId u` factory body calls `provider.resolve(u)`,
so it recurses into `resolveFuel` and can fail exactly as a Python factory
raising out of `resolve` would. -/
def runFactoryFuel : Nat → ProviderState → Nat → FactorySpec →
    Except DIError (PyVal × ProviderState)
  | _, st, t, FactorySpec.mkFresh =>
    Except.ok (PyVal.obj st.alloc,
      { st with alloc := st.alloc + 1, log := (Mech.factoryCall, t) :: st.log })
  | _, st, t, FactorySpec.retNone =>
    Except.ok (PyVal.vnone, { st with log := (Mech.factoryCall, t) :: st.log })
  | _, st, t, FactorySpec.retConst k =>
    Except.ok (PyVal.obj k, { st with log := (Mech.factoryCall, t) :: st.log })
  | 0, _, _, FactorySpec.resolveId _ => Except.error DIError.outOfFuel
  | Nat.succ n, st, t, FactorySpec.resolveId u =>
    resolveFuel n { st with log := (Mech.factoryCall, t) :: st.log } u

/-- `ServiceProvider.resolve`, `services.py` lines 292-329.  Fuel bounds the
recursion depth; sequentially the lock and the double cache check collapse
to the single `cacheGet` below. -/
def resolveFuel : Nat → ProviderState → Nat → Except DIError (PyVal × ProviderState)
  | 0, _, _ => Except.error DIError.outOfFuel
  | Nat.succ n, st, t =>
    match dictGet st.registry t with
    | Option.none => Except.error (DIError.unregisteredDependency t Option.none)
    | some reg =>
      match reg.lifetime with
      | Lifetime.singleton =>
        let c := cacheGet st.singleton_instances t
        if c = PyVal.vnone then
          -- slow path, under the lock: factory, then pre-built instance,
          -- then default activation (lines 313-321)
          match reg.factory with
          | some f =>
            match runFactoryFuel n st t f with
            | Except.error e => Except.error e
            | Except.ok p =>
              Except.ok (p.1,
                { p.2 with singleton_instances := cacheSet p.2.singleton_instances t p.1 })
          | Option.none =>
            if reg.inst = PyVal.vnone then
              match activateFuel n st reg with
              | Except.error e => Except.error e
              | Except.ok (v, st1) =>
                Except.ok (v,
                  { st1 with singleton_instances := cacheSet st1.singleton_instances t v })
            else
              Except.ok (reg.inst,
                { st with singleton_instances := cacheSet st.singleton_instances t reg.inst })
        else
          Except.ok (c, st)
      | Lifetime.transient =>
        match reg.factory with
        | some f => runFactoryFuel n st t f
        | Option.none => activateFuel n st reg
      | Lifetime.scoped => Except.error DIError.scopeRequired

/-- `DependencyRegistration.activate`, lines 91-103: resolve every
constructor parameter through the provider, then construct. -/
def activateFuel : Nat → ProviderState → Registration → Except DIError (PyVal × ProviderState)
  | 0, _, _ => Except.error DIError.outOfFuel
  | Nat.succ n, st, reg =>
    match resolveParamsFuel n st reg.constructor_params with
    | Except.error e => Except.error e
    | Except.ok st1 => Except.ok (mkInstance st1 reg.dependency_type)

/-- The `{param.name: provider.resolve(param.dependency_type) for param in
constructor_params}` comprehension: resolve each parameter in order,
keeping only the state (object field values play no role in the claims). -/
def resolveParamsFuel : Nat → ProviderState → List ConstructorDependency → Except DIError ProviderState
  | 0, _, _ => Except.error DIError.outOfFuel
  | Nat.succ _, st, [] => Except.ok st
  | Nat.succ n, st, p :: ps =>
    match resolveFuel n st p.dependency_type with
    | Except.error e => Except.error e
    | Except.ok (_, st1) => resolveParamsFuel n st1 ps

end

mutual

/-- `ServiceProvider.resolve_async`, lines 331-388.  With the synchronous
factories of this model (`FactorySpec` values are not coroutines, and a
`resolveId` factory body calls the provider's synchronous `resolve`) the
`iscoroutine` branches are no-ops; the cache and construction logic is the
mirror of `resolve`, sharing `singleton_instances`. -/
def resolveAsyncFuel : Nat → ProviderState → Nat → Except DIError (PyVal × ProviderState)
  | 0, _, _ => Except.error DIError.outOfFuel
  | Nat.succ n, st, t =>
    match dictGet st.registry t with
    | Option.none => Except.error (DIError.unregisteredDependency t Option.none)
    | some reg =>
      match reg.lifetime with
      | Lifetime.singleton =>
        let c := cacheGet st.singleton_instances t
        if c = PyVal.vnone then
          match reg.factory with
          | some f =>
            match runFactoryFuel n st t f with
            | Except.error e => Except.error e
            | Except.ok p =>
              Except.ok (p.1,
                { p.2 with singleton_instances := cacheSet p.2.singleton_instances t p.1 })
          | Option.none =>
            if reg.inst = PyVal.vnone then
              match activateAsyncFuel n st reg with
              | Except.error e => Except.error e
              | Except.ok (v, st1) =>
                Except.ok (v,
                  { st1 with singleton_instances := cacheSet st1.singleton_instances t v })
            else
              Except.ok (reg.inst,
                { st with singleton_instances := cacheSet st.singleton_instances t reg.inst })
        else
          Except.ok (c, st)
      | Lifetime.transient =>
        match reg.factory with
        | some f => runFactoryFuel n st t f
        | Option.none => activateAsyncFuel n st reg
      | Lifetime.scoped => Except.error DIError.scopeRequired

/-- `DependencyRegistration.activate_async`, lines 105-118. -/
def activateAsyncFuel : Nat → ProviderState → Registration → Except DIError (PyVal × ProviderState)
  | 0, _, _ => Except.error DIError.outOfFuel
  | Nat.succ n, st, reg =>
    match resolveAsyncParamsFuel n st reg.constructor_params with
    | Except.error e => Except.error e
    | Except.ok st1 => Except.ok (mkInstance st1 reg.dependency_type)

/-- The awaited parameter loop of `activate_async`. -/
def resolveAsyncParamsFuel : Nat → ProviderState → List ConstructorDependency → Except DIError ProviderState
  | 0, _, _ => Except.error DIError.outOfFuel
  | Nat.succ _, st, [] => Except.ok st
  | Nat.succ n, st, p :: ps =>
    match resolveAsyncFuel n st p.dependency_type with
    | Except.error e => Except.error e
    | Except.ok (_, st1) => resolveAsyncParamsFuel n st1 ps

end

/-- A `ServiceScope`'s own state: its private `_scoped_instances` dict
(lines 495-500).  Every other piece of state a scope touches lives in the
provider it was created from. -/
structure ScopeState where
  scoped_instances : List (Nat × PyVal)
  deriving DecidableEq, Repr

/-- `ServiceProvider.create_scope` / `ServiceScope.__init__`: a fresh scope
has an empty scoped-instance cache. -/
def createScope : ScopeState := ⟨[]⟩

mutual

/-- Run a registered factory `factory(self)` for identity `t` during scope
resolution, with the `ServiceScope` as the resolver (line 538): a
`resolveId u` factory body calls `scope.resolve(u)`, threading both the
provider state and this scope's cache. -/
def scopeRunFactoryFuel : Nat → ProviderState → ScopeState → Nat → FactorySpec →
    Except DIError (PyVal × ProviderState × ScopeState)
  | _, st, sc, t, FactorySpec.mkFresh =>
    Except.ok (PyVal.obj st.alloc,
      { st with alloc := st.alloc + 1, log := (Mech.factoryCall, t) :: st.log }, sc)
  | _, st, sc, t, FactorySpec.retNone =>
    Except.ok (PyVal.vnone, { st with log := (Mech.factoryCall, t) :: st.log }, sc)
  | _, st, sc, t, FactorySpec.retConst k =>
    Except.ok (PyVal.obj k, { st with log := (Mech.factoryCall, t) :: st.log }, sc)
  | 0, _, _, _, FactorySpec.resolveId _ => Except.error DIError.outOfFuel
  | Nat.succ n, st, sc, t, FactorySpec.resolveId u =>
    scopeResolveFuel n { st with log := (Mech.factoryCall, t) :: st.log } sc u

/-- `ServiceScope.resolve`, lines 518-547.  Singletons cascade to the
provider; scoped identities are served from the scope's cache when the
cached value is not `None`; otherwise the factory (handed the scope as its
resolver) or the precompiled `_resolver_fn` (which resolves constructor
parameters through the scope itself) constructs, and scoped results are
cached in this scope only. -/
def scopeResolveFuel : Nat → ProviderState → ScopeState → Nat →
    Except DIError (PyVal × ProviderState × ScopeState)
  | 0, _, _, _ => Except.error DIError.outOfFuel
  | Nat.succ n, st, sc, t =>
    match dictGet st.registry t with
    | Option.none => Except.error (DIError.unregisteredDependency t Option.none)
    | some reg =>
      match reg.lifetime with
      | Lifetime.singleton =>
        match resolveFuel n st t with
        | Except.error e => Except.error e
        | Except.ok (v, st1) => Except.ok (v, st1, sc)
      | Lifetime.transient =>
        match reg.factory with
        | some f => scopeRunFactoryFuel n st sc t f
        | Option.none =>
          match scopeParamsFuel n st sc reg.constructor_params with
          | Except.error e => Except.error e
          | Except.ok (st1, sc1) =>
            let p := mkInstance st1 t
            Except.ok (p.1, p.2, sc1)
      | Lifetime.scoped =>
        let c := cacheGet sc.scoped_instances t
        if c = PyVal.vnone then
          match reg.factory with
          | some f =>
            match scopeRunFactoryFuel n st sc t f with
            | Except.error e => Except.error e
            | Except.ok p =>
              Except.ok (p.1, p.2.1, ⟨cacheSet p.2.2.scoped_instances t p.1⟩)
          | Option.none =>
            match scopeParamsFuel n st sc reg.constructor_params with
            | Except.error e => Except.error e
            | Except.ok (st1, sc1) =>
              let p := mkInstance st1 t
              Except.ok (p.1, p.2, ⟨cacheSet sc1.scoped_instances t p.1⟩)
        else
          Except.ok (c, st, sc)

/-- The parameter comprehension of `_resolver_fn` (lines 222-228), with the
scope as the resolver: `impl(**{param.name: provider.resolve(...)})` where
`provider` is the `ServiceScope`. -/
def scopeParamsFuel : Nat → ProviderState → ScopeState → List ConstructorDependency →
    Except DIError (ProviderState × ScopeState)
  | 0, _, _, _ => Except.error DIError.outOfFuel
  | Nat.succ _, st, sc, [] => Except.ok (st, sc)
  | Nat.succ n, st, sc, p :: ps =>
    match scopeResolveFuel n st sc p.dependency_type with
    | Except.error e => Except.error e
    | Except.ok (_, st1, sc1) => scopeParamsFuel n st1 sc1 ps

end

/-- The DFS bookkeeping of `_topological_sort` (lines 408-431): the `visited`
set and the output list.  Python's sets hold `DependencyRegistration`
objects compared by `implementation_type` (lines 67-72), so `visited` (and
the `visiting` argument below) store implementation types. -/
structure DfsState where
  visited : List Nat
  order : List Registration
  deriving DecidableEq, Repr

mutual

/-- The inner `dfs` of `_topological_sort`.  `visiting` is passed down (the
Python set is added to before the recursive calls and removed from after,
so along any one path it is exactly the DFS stack).  A node already
`visited` is skipped; a node on the stack raises `CyclicDependency` with
its implementation-type name. -/
def dfsFuel (registry : List Registration) : Nat → List Nat → DfsState → Registration →
    Except DIError DfsState
  | 0, _, _, _ => Except.error DIError.outOfFuel
  | Nat.succ n, visiting, ds, d =>
    if d.implementation_type ∈ ds.visited then Except.ok ds
    else if d.implementation_type ∈ visiting then
      Except.error (DIError.cyclicDependency d.implementation_type)
    else
      match dfsParamsFuel registry n (d.implementation_type :: visiting) ds d
              d.constructor_params with
      | Except.error e => Except.error e
      | Except.ok ds1 =>
        Except.ok ⟨d.implementation_type :: ds1.visited, ds1.order ++ [d]⟩

/-- The `for param in dep.constructor_params` loop of `dfs`: look each
parameter up (raising `UnregisteredDependency` naming the missing identity
and the requester on a miss, lines 401-405 via line 423) and recurse. -/
def dfsParamsFuel (registry : List Registration) : Nat → List Nat → DfsState → Registration →
    List ConstructorDependency → Except DIError DfsState
  | 0, _, _, _, _ => Except.error DIError.outOfFuel
  | Nat.succ _, _, ds, _, [] => Except.ok ds
  | Nat.succ n, visiting, ds, q, p :: ps =>
    match dictGet registry p.dependency_type with
    | Option.none =>
      Except.error
        (DIError.unregisteredDependency p.dependency_type (some q.implementation_type))
    | some next =>
      match dfsFuel registry n visiting ds next with
      | Except.error e => Except.error e
      | Except.ok ds1 => dfsParamsFuel registry n visiting ds1 q ps

end

/-- The `for d in dependencies: dfs(d)` loop of `_topological_sort`: between
top-level roots the `visiting` set is empty again. -/
def topoFoldFuel (registry : List Registration) (fuel : Nat) :
    List Registration → DfsState → Except DIError DfsState
  | [], ds => Except.ok ds
  | d :: rest, ds =>
    match dfsFuel registry fuel [] ds d with
    | Except.error e => Except.error e
    | Except.ok ds1 => topoFoldFuel registry fuel rest ds1

/-- `ServiceProvider._topological_sort` applied to a root list. -/
def topologicalSortFuel (registry : List Registration) (fuel : Nat)
    (roots : List Registration) : Except DIError DfsState :=
  topoFoldFuel registry fuel roots ⟨[], []⟩

/-- `reg.instance = inst` during `build` (line 455): the registration object
mutated is the registry dict's value for its `dependency_type` key. -/
def setInst : List Registration → Nat → PyVal → List Registration
  | [], _, _ => []
  | r :: rs, t, v =>
    if r.dependency_type = t then { r with inst := v } :: rs else r :: setInst rs t v

/-- The `for reg in sorted_deps` loop of `build` (lines 439-457): skip
registrations that already carry an instance; otherwise run the factory or
default activation, store the result into the registration's `instance`
slot, and cache it in `_singleton_instances`. -/
def buildLoopFuel : Nat → ProviderState → List Registration → Except DIError ProviderState
  | 0, _, _ => Except.error DIError.outOfFuel
  | Nat.succ _, st, [] => Except.ok st
  | Nat.succ n, st, reg :: rest =>
    if reg.inst = PyVal.vnone then
      match
        (match reg.factory with
         | some f => runFactoryFuel n st reg.dependency_type f
         | Option.none => activateFuel n st reg) with
      | Except.error e => Except.error e
      | Except.ok (v, st1) =>
        buildLoopFuel n
          { st1 with
            registry := setInst st1.registry reg.dependency_type v,
            singleton_instances := cacheSet st1.singleton_instances reg.dependency_type v }
          rest
    else
      buildLoopFuel n st rest

/-- `ServiceProvider.build`, lines 433-458: topologically sort the
Singleton-lifetime registrations (the DFS also visits — and the loop then
also constructs — every registration reachable from them), then
instantiate in that order. -/
def buildFuel (fuel : Nat) (st : ProviderState) : Except DIError ProviderState :=
  match topologicalSortFuel st.registry fuel
          (st.registry.filter (fun d => d.lifetime = Lifetime.singleton)) with
  | Except.error e => Except.error e
  | Except.ok sorted => buildLoopFuel fuel st sorted.order

/-- `ServiceCollection.get_type_dependencies`, lines 131-141: walk the
implementation type's `__init__` signature (a list of
`(parameterName, optional annotation)` pairs — the reflection boundary the
spec places out of scope) and fail on the first parameter with no
annotation. -/
def get_type_dependencies (typeName : Nat) :
    List (Nat × Option Nat) → Except DIError (List ConstructorDependency)
  | [] => Except.ok []
  | (nm, Option.none) :: _ => Except.error (DIError.missingDepAnnot nm typeName)
  | (nm, some a) :: rest =>
    match get_type_dependencies typeName rest with
    | Except.error e => Except.error e
    | Except.ok ds => Except.ok (⟨nm, a⟩ :: ds)

/-- `ServiceCollection._register_dependency`, lines 206-237: introspect the
implementation's constructor exactly when no factory was supplied (the
`kwargs.get('factory') is None` test — a pre-built instance does not
suppress introspection), then store the registration under the abstract
identity, replacing any previous one. -/
def registerDependency (container : List Registration) (dependency_type : Nat)
    (implementation_type : Option Nat) (implSig : List (Nat × Option Nat))
    (lifetime : Lifetime) (inst : PyVal) (factory : Option FactorySpec) :
    Except DIError (List Registration) :=
  let impl := implementation_type.getD dependency_type
  match
    (match factory with
     | Option.none => get_type_dependencies impl implSig
     | some _ => Except.ok []) with
  | Except.error e => Except.error e
  | Except.ok ps =>
    Except.ok (dictInsert container ⟨dependency_type, impl, lifetime, inst, factory, ps⟩)

/-- A count of construction events recorded for identity `t`. -/
def countLog : List (Mech × Nat) → Nat → Nat
  | [], _ => 0
  | e :: l, t => (if e.2 = t then 1 else 0) + countLog l t

/-- A count of factory invocations recorded for identity `t`. -/
def countFact : List (Mech × Nat) → Nat → Nat
  | [], _ => 0
  | e :: l, t =>
    (if e.1 = Mech.factoryCall ∧ e.2 = t then 1 else 0) + countFact l t

/-- The dependency edges implied by `constructorParams`: `EdgeC registry a b`
when some constructor parameter of `a` names an identity whose registry
entry is `b`. -/
def EdgeC (registry : List Registration) (a b : Registration) : Prop :=
  ∃ p, p ∈ a.constructor_params ∧ dictGet registry p.dependency_type = some b

/-- An edge of the Singleton subgraph: both endpoints registered with
Singleton lifetime. -/
def EdgeS (registry : List Registration) (a b : Registration) : Prop :=
  a.lifetime = Lifetime.singleton ∧ b.lifetime = Lifetime.singleton ∧ EdgeC registry a b

/-- Reachability through one or more constructor-parameter edges. -/
def Reaches (registry : List Registration) : Registration → Registration → Prop :=
  Relation.TransGen (EdgeC registry)

/-- Distinct registry entries have distinct implementation types.  Python
compares `DependencyRegistration`s by `implementation_type`, so the DFS
book-keeping can only tell registrations apart up to this map. -/
abbrev ImplInj (registry : List Registration) : Prop :=
  ∀ a, a ∈ registry → ∀ b, b ∈ registry →
    a.implementation_type = b.implementation_type → a = b

/-- Every constructor-parameter identity of every registration is itself
registered (a "closed" registry). -/
abbrev RegistryClosed (registry : List Registration) : Prop :=
  ∀ r, r ∈ registry → ∀ p, p ∈ r.constructor_params →
    (dictGet registry p.dependency_type).isSome

/-- The registry maps each of its members' keys back to that member (keys
are unique — automatically true of any dict-built registry). -/
abbrev RegWF (registry : List Registration) : Prop :=
  ∀ r, r ∈ registry → dictGet registry r.dependency_type = some r

/-- A registration reachable (in zero or more steps) from some
Singleton-lifetime root — exactly the region `build` may touch. -/
def ReachableFromSingleton (registry : List Registration) (r : Registration) : Prop :=
  ∃ root, root ∈ registry ∧ root.lifetime = Lifetime.singleton ∧
    Relation.ReflTransGen (EdgeC registry) root r

/-- The registration whose resolution may touch identity `u` when identity
`t` is resolved: `u`'s registry entry is reachable (in zero or more
constructor-parameter edges) from `t`'s. -/
def ConeFrom (registry : List Registration) (t u : Nat) : Prop :=
  ∃ rt ru, dictGet registry t = some rt ∧ dictGet registry u = some ru ∧
    Relation.ReflTransGen (EdgeC registry) rt ru

/-- A key-level dependency edge: the registry entry for identity `t` either
has a constructor parameter naming identity `u`, or carries a
resolver-invoking factory `lambda r: r.resolve(u)` — both make resolving
`t` resolve `u`.  Unlike `EdgeC` this ignores the entry's mutable
`instance` slot, so it is invariant under `build`'s `reg.instance = inst`
writes. -/
def KeyEdge (registry : List Registration) (t u : Nat) : Prop :=
  ∃ r, dictGet registry t = some r ∧
    ((∃ p, p ∈ r.constructor_params ∧ p.dependency_type = u) ∨
      r.factory = some (FactorySpec.resolveId u))

/-- Key-level reachability in zero or more constructor-parameter or
factory-resolution edges. -/
def KeyCone (registry : List Registration) : Nat → Nat → Prop :=
  Relation.ReflTransGen (KeyEdge registry)

/-- Identity `u` lies in the region `build` may touch: some Singleton
root's identity key-reaches it. -/
def KeyReachableFromSingleton (registry : List Registration) (u : Nat) : Prop :=
  ∃ root, root ∈ registry ∧ root.lifetime = Lifetime.singleton ∧
    KeyCone registry root.dependency_type u

/-- The implementation-type universe of a registry (with multiplicity). -/
def implUniv (registry : List Registration) : List Nat :=
  registry.map (fun r => r.implementation_type)

/-- The largest constructor-parameter count in the registry. -/
def maxParams : List Registration → Nat
  | [] => 0
  | r :: rs => max r.constructor_params.length (maxParams rs)

/-- How many universe entries are not yet on the DFS stack. -/
def freeCount (registry : List Registration) (visiting : List Nat) : Nat :=
  ((implUniv registry).filter (fun x => decide (x ∉ visiting))).length

/-- Fuel sufficient for `_topological_sort` on this registry: the DFS stack
is bounded by the number of distinct implementation types, and each level
spends at most one frame per constructor parameter. -/
def sortFuel (registry : List Registration) : Nat :=
  (maxParams registry + 1) * (implUniv registry).length + 1

/-- The invariant the DFS bookkeeping maintains: the `visited` set tracks
the implementation types of the output `order`, whose entries come from the
registry, are pairwise distinct by implementation type, have all their
parameter identities registered, and are preceded by (an
implementation-type representative of) each of their edge targets. -/
structure GoodState (registry : List Registration) (ds : DfsState) : Prop where
  mem : ∀ r, r ∈ ds.order → r ∈ registry
  vis : ∀ x, x ∈ ds.visited ↔ ∃ r, r ∈ ds.order ∧ r.implementation_type = x
  nodup : (ds.order.map (fun r => r.implementation_type)).Nodup
  closed : ∀ j r, ds.order.get? j = some r → ∀ p, p ∈ r.constructor_params →
    ∀ r', dictGet registry p.dependency_type = some r' →
      ∃ i, i < j ∧ ∃ r2, ds.order.get? i = some r2 ∧
        r2.implementation_type = r'.implementation_type
  paramsReg : ∀ r, r ∈ ds.order → ∀ p, p ∈ r.constructor_params →
    (dictGet registry p.dependency_type).isSome

/-- The `visiting` argument of a `dfs` call is exactly the DFS stack: the
implementation types of a chain of registrations each of which has a
constructor-parameter edge to the one below it, ending in an edge to the
current node `d`. -/
def StackOK (registry : List Registration) (visiting : List Nat) (d : Registration) : Prop :=
  ∃ rs : List Registration, visiting = rs.map (fun r => r.implementation_type) ∧
    (∀ r, r ∈ rs → r ∈ registry) ∧
    List.Chain' (fun a b => EdgeC registry b a) (d :: rs)

/-- The stack shape seen by the parameter loop: its owner `q` is the top of
the stack. -/
def StackOKP (registry : List Registration) (visiting : List Nat) (q : Registration) : Prop :=
  ∃ rs : List Registration, visiting = (q :: rs).map (fun r => r.implementation_type) ∧
    (∀ r, r ∈ q :: rs → r ∈ registry) ∧
    List.Chain' (fun a b => EdgeC registry b a) (q :: rs)

/-- What any error escaping `_topological_sort` can be: the model's fuel
bound; a cyclic-dependency report naming an implementation type that (up to
implementation-type identification) lies on a genuine cycle; or an
unregistered-dependency report naming a genuinely missing identity together
with the implementation type of a genuine requester. -/
def ErrSpecP (registry : List Registration) (e : DIError) : Prop :=
  e = DIError.outOfFuel ∨
  (∃ a b, a ∈ registry ∧ b ∈ registry ∧
    a.implementation_type = b.implementation_type ∧
    e = DIError.cyclicDependency b.implementation_type ∧
    Relation.TransGen (EdgeC registry) a b) ∨
  (∃ m q, q ∈ registry ∧ e = DIError.unregisteredDependency m (some q.implementation_type) ∧
    (∃ p, p ∈ q.constructor_params ∧ p.dependency_type = m) ∧
    dictGet registry m = Option.none)

/-! ### Concrete registries used by the counterexamples and witnesses

Each is produced by the public registration API; e.g. `exC1reg` is
`add_singleton(A, factory=lambda p: None)` with identity `A` numbered `0`
and the concrete class numbered `100`. -/

/-- `add_singleton(A, factory=...)` with a factory returning `None`. -/
def exC1reg : Registration :=
  ⟨0, 100, Lifetime.singleton, PyVal.vnone, some FactorySpec.retNone, []⟩

def exC1st : ProviderState := ⟨[exC1reg], [], 0, []⟩

/-- `add_singleton(A, instance=obj7, factory=lambda p: obj9)`: both a
pre-built instance and a factory. -/
def exC2reg : Registration :=
  ⟨0, 100, Lifetime.singleton, PyVal.obj 7, some (FactorySpec.retConst 9), []⟩

def exC2st : ProviderState := ⟨[exC2reg], [], 0, []⟩

/-- `add_transient(T, factory=lambda p: obj3)`, later re-registered. -/
def exC3reg : Registration :=
  ⟨0, 100, Lifetime.transient, PyVal.vnone, some (FactorySpec.retConst 3), []⟩

/-- The re-registration of the same identity with a different
implementation and factory, performed after `build`. -/
def exC3reg2 : Registration :=
  ⟨0, 101, Lifetime.transient, PyVal.vnone, some (FactorySpec.retConst 5), []⟩

def exC3st : ProviderState := ⟨[exC3reg], [], 0, []⟩

/-- `add_singleton(A, X, factory=...)`: identity `0`, implementation `100`. -/
def exC4regA : Registration :=
  ⟨0, 100, Lifetime.singleton, PyVal.vnone, some FactorySpec.mkFresh, []⟩

/-- `add_singleton(B, X)` where `X.__init__(self, b: B)`: identity `1`
shares implementation `100` with `exC4regA` and depends on itself. -/
def exC4regB : Registration :=
  ⟨1, 100, Lifetime.singleton, PyVal.vnone, Option.none, [⟨0, 1⟩]⟩

def exC4st : ProviderState := ⟨[exC4regA, exC4regB], [], 0, []⟩

/-- A singleton whose constructor requires the unregistered identity `9`. -/
def exC4regP : Registration :=
  ⟨0, 100, Lifetime.singleton, PyVal.vnone, Option.none, [⟨0, 9⟩]⟩

/-- A self-referencing singleton (identity `1`, implementation `101`). -/
def exC4regQ : Registration :=
  ⟨1, 101, Lifetime.singleton, PyVal.vnone, Option.none, [⟨0, 1⟩]⟩

def exC4st2 : ProviderState := ⟨[exC4regP, exC4regQ], [], 0, []⟩

def exC5regA : Registration :=
  ⟨0, 100, Lifetime.singleton, PyVal.vnone, some FactorySpec.mkFresh, []⟩

/-- Identity `1`, sharing implementation `100` with `exC5regA`, requiring
identity `2`. -/
def exC5regB : Registration :=
  ⟨1, 100, Lifetime.singleton, PyVal.vnone, Option.none, [⟨0, 2⟩]⟩

def exC5regC : Registration :=
  ⟨2, 102, Lifetime.singleton, PyVal.vnone, some FactorySpec.mkFresh, []⟩

/-- Identity `3`, requiring identity `1` (`exC5regB`). -/
def exC5regD : Registration :=
  ⟨3, 103, Lifetime.singleton, PyVal.vnone, Option.none, [⟨0, 1⟩]⟩

def exC5regs : List Registration := [exC5regA, exC5regB, exC5regC, exC5regD]

/-- `add_transient(T)` where `T.__init__(self, b: B)` and `B` is never
registered. -/
def exC6reg : Registration :=
  ⟨0, 100, Lifetime.transient, PyVal.vnone, Option.none, [⟨0, 5⟩]⟩

def exC6st : ProviderState := ⟨[exC6reg], [], 0, []⟩

/-- `add_singleton(A)` where `A.__init__(self, t: T)`. -/
def exC7regA : Registration :=
  ⟨0, 100, Lifetime.singleton, PyVal.vnone, Option.none, [⟨0, 1⟩]⟩

/-- `add_transient(T)`, a dependency of the singleton `exC7regA`. -/
def exC7regT : Registration :=
  ⟨1, 101, Lifetime.transient, PyVal.vnone, Option.none, []⟩

def exC7st : ProviderState := ⟨[exC7regA, exC7regT], [], 0, []⟩

/-- `add_singleton(S, instance=obj9, factory=lambda p: obj7)`: pre-built
instance and a factory, depended on by `exC7regA`-shaped `exC7regB`. -/
def exC7regB : Registration :=
  ⟨0, 100, Lifetime.singleton, PyVal.vnone, Option.none, [⟨0, 1⟩]⟩

def exC7regS : Registration :=
  ⟨1, 101, Lifetime.singleton, PyVal.obj 9, some (FactorySpec.retConst 7), []⟩

def exC7st2 : ProviderState := ⟨[exC7regB, exC7regS], [], 0, []⟩

/-- `add_singleton(F, factory=lambda p: p.resolve(U))`: a resolver-invoking
factory; because a factory suppresses introspection, the registration
carries no constructor parameters. -/
def exC7regF : Registration :=
  ⟨0, 100, Lifetime.singleton, PyVal.vnone, some (FactorySpec.resolveId 1), []⟩

/-- `add_transient(U)`: depended on by `exC7regF` only through its factory
body, never through any constructor parameter. -/
def exC7regU : Registration :=
  ⟨1, 101, Lifetime.transient, PyVal.vnone, Option.none, []⟩

def exC7st3 : ProviderState := ⟨[exC7regF, exC7regU], [], 0, []⟩

/-- `add_scoped(R, factory=lambda s: None)`. -/
def exC9regN : Registration :=
  ⟨0, 100, Lifetime.scoped, PyVal.vnone, some FactorySpec.retNone, []⟩

/-- `add_scoped(R, factory=lambda s: shared_obj5)`: a constant factory. -/
def exC9regK : Registration :=
  ⟨0, 100, Lifetime.scoped, PyVal.vnone, some (FactorySpec.retConst 5), []⟩

/-- `add_singleton(A)` with `A.__init__(self, b: B)` and
`add_singleton(B)` with `B.__init__` requiring nothing: the two-node
acyclic chain used by witnesses. -/
def exWregB : Registration :=
  ⟨1, 101, Lifetime.singleton, PyVal.vnone, some FactorySpec.mkFresh, []⟩

def exWregA : Registration :=
  ⟨0, 100, Lifetime.singleton, PyVal.vnone, Option.none, [⟨0, 1⟩]⟩

def exWregs : List Registration := [exWregA, exWregB]

end Depi

/-! ## Basic lemmas about the registry and cache operations -/

namespace Depi

theorem dictGet_mem {registry : List Registration} {t : Nat} {r : Registration}
    (h : dictGet registry t = some r) : r ∈ registry := by
  induction registry with
  | nil => simp [dictGet] at h
  | cons x xs ih =>
    by_cases hx : x.dependency_type = t
    · simp [dictGet, hx] at h
      simp [h]
    · simp [dictGet, hx] at h
      exact List.mem_cons_of_mem x (ih h)

theorem dictGet_key {registry : List Registration} {t : Nat} {r : Registration}
    (h : dictGet registry t = some r) : r.dependency_type = t := by
  induction registry with
  | nil => simp [dictGet] at h
  | cons x xs ih =>
    by_cases hx : x.dependency_type = t
    · simp [dictGet, hx] at h
      rw [← h]; exact hx
    · simp [dictGet, hx] at h
      exact ih h

theorem dictGet_dictInsert_self (m : List Registration) (r : Registration) :
    dictGet (dictInsert m r) r.dependency_type = some r := by
  induction m with
  | nil => simp [dictInsert, dictGet]
  | cons x xs ih =>
    by_cases hx : x.dependency_type = r.dependency_type
    · simp [dictInsert, hx, dictGet]
    · simp [dictInsert, hx, dictGet, ih]

theorem dictGet_dictInsert_ne (m : List Registration) (r : Registration) {t : Nat}
    (h : t ≠ r.dependency_type) : dictGet (dictInsert m r) t = dictGet m t := by
  have hrt : r.dependency_type ≠ t := Ne.symm h
  induction m with
  | nil => simp [dictInsert, dictGet, hrt]
  | cons x xs ih =>
    by_cases hx : x.dependency_type = r.dependency_type
    · have hxt : x.dependency_type ≠ t := by rw [hx]; exact hrt
      simp [dictInsert, hx, dictGet, hxt, hrt]
    · by_cases hxt : x.dependency_type = t
      · simp [dictInsert, hx, dictGet, hxt, h]
      · simp [dictInsert, hx, dictGet, hxt, ih]

theorem cacheGet_cacheSet_self (c : List (Nat × PyVal)) (t : Nat) (v : PyVal) :
    cacheGet (cacheSet c t v) t = v := by
  induction c with
  | nil => simp [cacheSet, cacheGet]
  | cons e es ih =>
    by_cases he : e.1 = t
    · simp [cacheSet, he, cacheGet]
    · simp [cacheSet, he, cacheGet, ih]

theorem cacheGet_cacheSet_ne (c : List (Nat × PyVal)) {t u : Nat} (v : PyVal)
    (h : u ≠ t) : cacheGet (cacheSet c t v) u = cacheGet c u := by
  have htu : t ≠ u := Ne.symm h
  induction c with
  | nil => simp [cacheSet, cacheGet, htu]
  | cons e es ih =>
    by_cases he : e.1 = t
    · have heu : e.1 ≠ u := by rw [he]; exact htu
      simp [cacheSet, he, cacheGet, heu, htu]
    · by_cases heu : e.1 = u
      · simp [cacheSet, he, cacheGet, heu, h]
      · simp [cacheSet, he, cacheGet, heu, ih]

theorem setInst_get_ne (m : List Registration) {t u : Nat} (v : PyVal)
    (h : u ≠ t) : dictGet (setInst m t v) u = dictGet m u := by
  have htu : t ≠ u := Ne.symm h
  induction m with
  | nil => simp [setInst, dictGet]
  | cons x xs ih =>
    by_cases hx : x.dependency_type = t
    · have hxu : x.dependency_type ≠ u := by rw [hx]; exact htu
      simp [setInst, hx, dictGet, hxu, htu]
    · by_cases hxu : x.dependency_type = u
      · simp [setInst, hx, dictGet, hxu, h]
      · simp [setInst, hx, dictGet, hxu, ih]

theorem runFactoryFuel_mkFresh (n : Nat) (st : ProviderState) (t : Nat) :
    runFactoryFuel n st t FactorySpec.mkFresh =
      Except.ok (PyVal.obj st.alloc,
        { st with alloc := st.alloc + 1, log := (Mech.factoryCall, t) :: st.log }) := by
  cases n <;> rfl

theorem runFactoryFuel_retNone (n : Nat) (st : ProviderState) (t : Nat) :
    runFactoryFuel n st t FactorySpec.retNone =
      Except.ok (PyVal.vnone, { st with log := (Mech.factoryCall, t) :: st.log }) := by
  cases n <;> rfl

theorem runFactoryFuel_retConst (n : Nat) (st : ProviderState) (t k : Nat) :
    runFactoryFuel n st t (FactorySpec.retConst k) =
      Except.ok (PyVal.obj k, { st with log := (Mech.factoryCall, t) :: st.log }) := by
  cases n <;> rfl

theorem runFactoryFuel_resolveId (n : Nat) (st : ProviderState) (t u : Nat) :
    runFactoryFuel (n + 1) st t (FactorySpec.resolveId u) =
      resolveFuel n { st with log := (Mech.factoryCall, t) :: st.log } u := rfl

theorem scopeRunFactoryFuel_retNone (n : Nat) (st : ProviderState) (sc : ScopeState)
    (t : Nat) : scopeRunFactoryFuel n st sc t FactorySpec.retNone =
      Except.ok (PyVal.vnone, { st with log := (Mech.factoryCall, t) :: st.log }, sc) := by
  cases n <;> rfl

theorem scopeRunFactoryFuel_retConst (n : Nat) (st : ProviderState) (sc : ScopeState)
    (t k : Nat) : scopeRunFactoryFuel n st sc t (FactorySpec.retConst k) =
      Except.ok (PyVal.obj k, { st with log := (Mech.factoryCall, t) :: st.log }, sc) := by
  cases n <;> rfl

theorem scopeRunFactoryFuel_mkFresh (n : Nat) (st : ProviderState) (sc : ScopeState)
    (t : Nat) : scopeRunFactoryFuel n st sc t FactorySpec.mkFresh =
      Except.ok (PyVal.obj st.alloc,
        { st with alloc := st.alloc + 1, log := (Mech.factoryCall, t) :: st.log }, sc) := by
  cases n <;> rfl

theorem scopeRunFactoryFuel_resolveId (n : Nat) (st : ProviderState) (sc : ScopeState)
    (t u : Nat) : scopeRunFactoryFuel (n + 1) st sc t (FactorySpec.resolveId u) =
      scopeResolveFuel n { st with log := (Mech.factoryCall, t) :: st.log } sc u := rfl

/-- A factory other than `resolveId` leaves the provider state unchanged
except for the recorded factory call and (for `mkFresh`) the allocation. -/
theorem runFactoryFuel_pure_state {n : Nat} {st : ProviderState} {t : Nat}
    {f : FactorySpec} {v : PyVal} {st' : ProviderState}
    (hnr : ∀ u, f ≠ FactorySpec.resolveId u)
    (h : runFactoryFuel n st t f = Except.ok (v, st')) :
    st'.registry = st.registry ∧ st'.singleton_instances = st.singleton_instances ∧
    st'.log = (Mech.factoryCall, t) :: st.log := by
  cases f with
  | mkFresh =>
    rw [runFactoryFuel_mkFresh] at h
    simp only [Except.ok.injEq, Prod.mk.injEq] at h
    obtain ⟨hv, hst⟩ := h
    subst hst
    exact ⟨rfl, rfl, rfl⟩
  | retNone =>
    rw [runFactoryFuel_retNone] at h
    simp only [Except.ok.injEq, Prod.mk.injEq] at h
    obtain ⟨hv, hst⟩ := h
    subst hst
    exact ⟨rfl, rfl, rfl⟩
  | retConst k =>
    rw [runFactoryFuel_retConst] at h
    simp only [Except.ok.injEq, Prod.mk.injEq] at h
    obtain ⟨hv, hst⟩ := h
    subst hst
    exact ⟨rfl, rfl, rfl⟩
  | resolveId u => exact absurd rfl (hnr u)

/-- The scope-resolver mirror of `runFactoryFuel_pure_state`: a factory
other than `resolveId` also leaves the scope cache unchanged. -/
theorem scopeRunFactoryFuel_pure_state {n : Nat} {st : ProviderState} {sc : ScopeState}
    {t : Nat} {f : FactorySpec} {v : PyVal} {st' : ProviderState} {sc' : ScopeState}
    (hnr : ∀ u, f ≠ FactorySpec.resolveId u)
    (h : scopeRunFactoryFuel n st sc t f = Except.ok (v, st', sc')) :
    st'.registry = st.registry ∧ st'.singleton_instances = st.singleton_instances ∧
    st'.log = (Mech.factoryCall, t) :: st.log ∧ sc' = sc := by
  cases f with
  | mkFresh =>
    rw [scopeRunFactoryFuel_mkFresh] at h
    simp only [Except.ok.injEq, Prod.mk.injEq] at h
    obtain ⟨hv, hst, hsc⟩ := h
    subst hst
    subst hsc
    exact ⟨rfl, rfl, rfl, rfl⟩
  | retNone =>
    rw [scopeRunFactoryFuel_retNone] at h
    simp only [Except.ok.injEq, Prod.mk.injEq] at h
    obtain ⟨hv, hst, hsc⟩ := h
    subst hst
    subst hsc
    exact ⟨rfl, rfl, rfl, rfl⟩
  | retConst k =>
    rw [scopeRunFactoryFuel_retConst] at h
    simp only [Except.ok.injEq, Prod.mk.injEq] at h
    obtain ⟨hv, hst, hsc⟩ := h
    subst hst
    subst hsc
    exact ⟨rfl, rfl, rfl, rfl⟩
  | resolveId u => exact absurd rfl (hnr u)

theorem mkInstance_registry (st : ProviderState) (t : Nat) :
    (mkInstance st t).2.registry = st.registry := rfl

theorem mkInstance_log (st : ProviderState) (t : Nat) :
    (mkInstance st t).2.log = (Mech.defaultCtor, t) :: st.log := rfl

theorem mkInstance_cache (st : ProviderState) (t : Nat) :
    (mkInstance st t).2.singleton_instances = st.singleton_instances := rfl

theorem countLog_cons (e : Mech × Nat) (l : List (Mech × Nat)) (t : Nat) :
    countLog (e :: l) t = (if e.2 = t then 1 else 0) + countLog l t := rfl

theorem countFact_cons (e : Mech × Nat) (l : List (Mech × Nat)) (t : Nat) :
    countFact (e :: l) t =
      (if e.1 = Mech.factoryCall ∧ e.2 = t then 1 else 0) + countFact l t := rfl

end Depi

/-! ## The resolve family never writes the registry -/

namespace Depi

theorem resolve_family_registry : ∀ n : Nat,
    (∀ st t v st', resolveFuel n st t = Except.ok (v, st') → st'.registry = st.registry) ∧
    (∀ st reg v st', activateFuel n st reg = Except.ok (v, st') → st'.registry = st.registry) ∧
    (∀ st ps st', resolveParamsFuel n st ps = Except.ok st' → st'.registry = st.registry) ∧
    (∀ st t f v st', runFactoryFuel n st t f = Except.ok (v, st') →
      st'.registry = st.registry) := by
  intro n
  induction n with
  | zero =>
    refine ⟨?_, ?_, ?_, ?_⟩
    · intro st t v st' h; simp [resolveFuel] at h
    · intro st reg v st' h; simp [activateFuel] at h
    · intro st ps st' h; simp [resolveParamsFuel] at h
    · intro st t f v st' h
      cases f with
      | mkFresh => exact (runFactoryFuel_pure_state (by simp) h).1
      | retNone => exact (runFactoryFuel_pure_state (by simp) h).1
      | retConst k => exact (runFactoryFuel_pure_state (by simp) h).1
      | resolveId u => simp [runFactoryFuel] at h
  | succ n ih =>
    obtain ⟨ihr, iha, ihp, ihf⟩ := ih
    refine ⟨?_, ?_, ?_, ?_⟩
    · intro st t v st' h
      simp only [resolveFuel] at h
      cases hget : dictGet st.registry t with
      | none => simp only [hget] at h; exact absurd h (by simp)
      | some reg =>
        simp only [hget] at h
        cases hlife : reg.lifetime <;> simp only [hlife] at h
        · -- singleton
          by_cases hc : cacheGet st.singleton_instances t = PyVal.vnone
          · simp only [if_pos hc] at h
            cases hf : reg.factory with
            | some f =>
              simp only [hf] at h
              cases hrf : runFactoryFuel n st t f with
              | error e => simp only [hrf] at h; exact absurd h (by simp)
              | ok p =>
                simp only [hrf, Except.ok.injEq, Prod.mk.injEq] at h
                obtain ⟨hv, hst⟩ := h
                subst hst
                exact ihf st t f p.1 p.2 (by rw [hrf])
            | none =>
              simp only [hf] at h
              by_cases hi : reg.inst = PyVal.vnone
              · simp only [if_pos hi] at h
                cases hact : activateFuel n st reg with
                | error e => simp only [hact] at h; exact absurd h (by simp)
                | ok p =>
                  simp only [hact, Except.ok.injEq, Prod.mk.injEq] at h
                  obtain ⟨hv, hst⟩ := h
                  subst hst
                  exact iha st reg p.1 p.2 (by rw [hact])
              · simp only [if_neg hi, Except.ok.injEq, Prod.mk.injEq] at h
                obtain ⟨hv, hst⟩ := h
                subst hst
                rfl
          · simp only [if_neg hc, Except.ok.injEq, Prod.mk.injEq] at h
            obtain ⟨hv, hst⟩ := h
            subst hst
            rfl
        · -- transient
          cases hf : reg.factory with
          | some f =>
            simp only [hf] at h
            exact ihf st t f v st' h
          | none =>
            simp only [hf] at h
            exact iha st reg v st' h
        · -- scoped
          exact absurd h (by simp)
    · intro st reg v st' h
      simp only [activateFuel] at h
      cases hps : resolveParamsFuel n st reg.constructor_params with
      | error e => simp only [hps] at h; exact absurd h (by simp)
      | ok st1 =>
        simp only [hps, Except.ok.injEq] at h
        have hst : st' = (mkInstance st1 reg.dependency_type).2 := by rw [h]
        rw [hst, mkInstance_registry]
        exact ihp st reg.constructor_params st1 hps
    · intro st ps st' h
      cases ps with
      | nil =>
        simp only [resolveParamsFuel, Except.ok.injEq] at h
        subst h
        rfl
      | cons p rest =>
        simp only [resolveParamsFuel] at h
        cases hres : resolveFuel n st p.dependency_type with
        | error e => simp only [hres] at h; exact absurd h (by simp)
        | ok q =>
          simp only [hres] at h
          have h1 := ihr st p.dependency_type q.1 q.2 (by rw [hres])
          have h2 := ihp q.2 rest st' h
          rw [h2, h1]
    · intro st t f v st' h
      cases f with
      | mkFresh => exact (runFactoryFuel_pure_state (by simp) h).1
      | retNone => exact (runFactoryFuel_pure_state (by simp) h).1
      | retConst k => exact (runFactoryFuel_pure_state (by simp) h).1
      | resolveId u =>
        rw [runFactoryFuel_resolveId] at h
        have := ihr { st with log := (Mech.factoryCall, t) :: st.log } u v st' h
        simpa using this

end Depi

namespace Depi

theorem resolveFuel_registry {n : Nat} {st : ProviderState} {t : Nat} {v : PyVal}
    {st' : ProviderState} (h : resolveFuel n st t = Except.ok (v, st')) :
    st'.registry = st.registry :=
  (resolve_family_registry n).1 st t v st' h

theorem resolveParamsFuel_registry {n : Nat} {st : ProviderState}
    {ps : List ConstructorDependency} {st' : ProviderState}
    (h : resolveParamsFuel n st ps = Except.ok st') : st'.registry = st.registry :=
  (resolve_family_registry n).2.2.1 st ps st' h

theorem activateFuel_registry {n : Nat} {st : ProviderState} {reg : Registration}
    {v : PyVal} {st' : ProviderState} (h : activateFuel n st reg = Except.ok (v, st')) :
    st'.registry = st.registry :=
  (resolve_family_registry n).2.1 st reg v st' h

theorem runFactoryFuel_registry {n : Nat} {st : ProviderState} {t : Nat}
    {f : FactorySpec} {v : PyVal} {st' : ProviderState}
    (h : runFactoryFuel n st t f = Except.ok (v, st')) : st'.registry = st.registry :=
  (resolve_family_registry n).2.2.2 st t f v st' h

/-- The construction log only grows: every successful call of the resolve
family leaves the prior log as a suffix, and a successful factory call
leaves its own `factoryCall` event immediately above the prior log. -/
theorem resolve_family_log : ∀ n : Nat,
    (∀ st t v st', resolveFuel n st t = Except.ok (v, st') →
      ∃ l, st'.log = l ++ st.log) ∧
    (∀ st reg v st', activateFuel n st reg = Except.ok (v, st') →
      ∃ l, st'.log = l ++ st.log) ∧
    (∀ st ps st', resolveParamsFuel n st ps = Except.ok st' →
      ∃ l, st'.log = l ++ st.log) ∧
    (∀ st t f v st', runFactoryFuel n st t f = Except.ok (v, st') →
      ∃ l, st'.log = l ++ (Mech.factoryCall, t) :: st.log) := by
  intro n
  induction n with
  | zero =>
    refine ⟨?_, ?_, ?_, ?_⟩
    · intro st t v st' h; simp [resolveFuel] at h
    · intro st reg v st' h; simp [activateFuel] at h
    · intro st ps st' h; simp [resolveParamsFuel] at h
    · intro st t f v st' h
      cases f with
      | mkFresh => exact ⟨[], (runFactoryFuel_pure_state (by simp) h).2.2⟩
      | retNone => exact ⟨[], (runFactoryFuel_pure_state (by simp) h).2.2⟩
      | retConst k => exact ⟨[], (runFactoryFuel_pure_state (by simp) h).2.2⟩
      | resolveId u => simp [runFactoryFuel] at h
  | succ n ih =>
    obtain ⟨ihr, iha, ihp, ihf⟩ := ih
    refine ⟨?_, ?_, ?_, ?_⟩
    · intro st t v st' h
      simp only [resolveFuel] at h
      cases hget : dictGet st.registry t with
      | none => simp only [hget] at h; exact absurd h (by simp)
      | some reg =>
        simp only [hget] at h
        cases hlife : reg.lifetime <;> simp only [hlife] at h
        · by_cases hc : cacheGet st.singleton_instances t = PyVal.vnone
          · simp only [if_pos hc] at h
            cases hf : reg.factory with
            | some f =>
              simp only [hf] at h
              cases hrf : runFactoryFuel n st t f with
              | error e => simp only [hrf] at h; exact absurd h (by simp)
              | ok p =>
                simp only [hrf, Except.ok.injEq, Prod.mk.injEq] at h
                obtain ⟨hv, hst⟩ := h
                subst hst
                obtain ⟨l, hl⟩ := ihf st t f p.1 p.2 (by rw [hrf])
                exact ⟨l ++ [(Mech.factoryCall, t)], by simp [hl]⟩
            | none =>
              simp only [hf] at h
              by_cases hi : reg.inst = PyVal.vnone
              · simp only [if_pos hi] at h
                cases hact : activateFuel n st reg with
                | error e => simp only [hact] at h; exact absurd h (by simp)
                | ok p =>
                  simp only [hact, Except.ok.injEq, Prod.mk.injEq] at h
                  obtain ⟨hv, hst⟩ := h
                  subst hst
                  exact iha st reg p.1 p.2 (by rw [hact])
              · simp only [if_neg hi, Except.ok.injEq, Prod.mk.injEq] at h
                obtain ⟨hv, hst⟩ := h
                subst hst
                exact ⟨[], rfl⟩
          · simp only [if_neg hc, Except.ok.injEq, Prod.mk.injEq] at h
            obtain ⟨hv, hst⟩ := h
            subst hst
            exact ⟨[], rfl⟩
        · cases hf : reg.factory with
          | some f =>
            simp only [hf] at h
            obtain ⟨l, hl⟩ := ihf st t f v st' h
            exact ⟨l ++ [(Mech.factoryCall, t)], by simp [hl]⟩
          | none =>
            simp only [hf] at h
            exact iha st reg v st' h
        · exact absurd h (by simp)
    · intro st reg v st' h
      simp only [activateFuel] at h
      cases hps : resolveParamsFuel n st reg.constructor_params with
      | error e => simp only [hps] at h; exact absurd h (by simp)
      | ok st1 =>
        simp only [hps, Except.ok.injEq] at h
        have hst : st' = (mkInstance st1 reg.dependency_type).2 := by rw [h]
        subst hst
        obtain ⟨l, hl⟩ := ihp st reg.constructor_params st1 hps
        exact ⟨(Mech.defaultCtor, reg.dependency_type) :: l, by simp [mkInstance, hl]⟩
    · intro st ps st' h
      cases ps with
      | nil =>
        simp only [resolveParamsFuel, Except.ok.injEq] at h
        subst h
        exact ⟨[], rfl⟩
      | cons p rest =>
        simp only [resolveParamsFuel] at h
        cases hres : resolveFuel n st p.dependency_type with
        | error e => simp only [hres] at h; exact absurd h (by simp)
        | ok q =>
          simp only [hres] at h
          obtain ⟨l1, hl1⟩ := ihr st p.dependency_type q.1 q.2 (by rw [hres])
          obtain ⟨l2, hl2⟩ := ihp q.2 rest st' h
          exact ⟨l2 ++ l1, by rw [hl2, hl1, List.append_assoc]⟩
    · intro st t f v st' h
      cases f with
      | mkFresh => exact ⟨[], (runFactoryFuel_pure_state (by simp) h).2.2⟩
      | retNone => exact ⟨[], (runFactoryFuel_pure_state (by simp) h).2.2⟩
      | retConst k => exact ⟨[], (runFactoryFuel_pure_state (by simp) h).2.2⟩
      | resolveId u =>
        rw [runFactoryFuel_resolveId] at h
        obtain ⟨l, hl⟩ := ihr { st with log := (Mech.factoryCall, t) :: st.log } u v st' h
        exact ⟨l, hl⟩

/-- After a successful singleton resolve of `t`, the singleton cache holds
exactly the returned value at `t` (whichever construction path ran, the
`cache[_type] = instance` write on line 320 is the last cache effect). -/
theorem resolve_singleton_cache_at {n : Nat} {st : ProviderState} {t : Nat}
    {reg : Registration} {v : PyVal} {st' : ProviderState}
    (hget : dictGet st.registry t = some reg) (hlife : reg.lifetime = Lifetime.singleton)
    (h : resolveFuel n st t = Except.ok (v, st')) :
    cacheGet st'.singleton_instances t = v := by
  cases n with
  | zero => simp [resolveFuel] at h
  | succ n =>
    simp only [resolveFuel, hget, hlife] at h
    by_cases hc : cacheGet st.singleton_instances t = PyVal.vnone
    · simp only [if_pos hc] at h
      cases hf : reg.factory with
      | some f =>
        simp only [hf] at h
        cases hrf : runFactoryFuel n st t f with
        | error e => simp only [hrf] at h; exact absurd h (by simp)
        | ok p =>
          simp only [hrf, Except.ok.injEq, Prod.mk.injEq] at h
          obtain ⟨hv, hst⟩ := h
          subst hst
          simp [cacheGet_cacheSet_self, hv]
      | none =>
        simp only [hf] at h
        by_cases hi : reg.inst = PyVal.vnone
        · simp only [if_pos hi] at h
          cases hact : activateFuel n st reg with
          | error e => simp only [hact] at h; exact absurd h (by simp)
          | ok p =>
            simp only [hact, Except.ok.injEq, Prod.mk.injEq] at h
            obtain ⟨hv, hst⟩ := h
            subst hst
            simp [cacheGet_cacheSet_self, hv]
        · simp only [if_neg hi, Except.ok.injEq, Prod.mk.injEq] at h
          obtain ⟨hv, hst⟩ := h
          subst hst
          simp [cacheGet_cacheSet_self, hv]
    · simp only [if_neg hc, Except.ok.injEq, Prod.mk.injEq] at h
      obtain ⟨hv, hst⟩ := h
      subst hst
      exact hv

/-- A singleton resolve that finds a non-`None` cached value is the pure
fast path: it returns the cached value and leaves the state untouched. -/
theorem resolve_cache_hit {st : ProviderState} {t : Nat} {reg : Registration} (n : Nat)
    (hget : dictGet st.registry t = some reg) (hlife : reg.lifetime = Lifetime.singleton)
    (hc : cacheGet st.singleton_instances t ≠ PyVal.vnone) :
    resolveFuel (n + 1) st t = Except.ok (cacheGet st.singleton_instances t, st) := by
  simp only [resolveFuel, hget, hlife, if_neg hc]

/-- The `resolve_async` mirror of `resolve_cache_hit` (lines 340-342): the
two paths share one `_singleton_instances` cache. -/
theorem resolveAsync_cache_hit {st : ProviderState} {t : Nat} {reg : Registration} (n : Nat)
    (hget : dictGet st.registry t = some reg) (hlife : reg.lifetime = Lifetime.singleton)
    (hc : cacheGet st.singleton_instances t ≠ PyVal.vnone) :
    resolveAsyncFuel (n + 1) st t = Except.ok (cacheGet st.singleton_instances t, st) := by
  simp only [resolveAsyncFuel, hget, hlife, if_neg hc]

end Depi

/-! ## Claims C1, C2, C10: singleton resolution and activation priority -/

namespace Depi

/-- C1 (amended): once a resolve of a Singleton identity has returned a
non-`None` instance, every later `resolve` and `resolve_async` on the same
Provider returns that identical instance and leaves the provider state
untouched — in particular the factory/constructor never runs again.  (The
non-`None` proviso is forced by the counterexample: the cache lookup cannot
distinguish a cached `None` from a miss.) -/
theorem c1_singleton_identical_after_first : ∀ st t reg n v st',
    dictGet st.registry t = some reg → reg.lifetime = Lifetime.singleton →
    resolveFuel n st t = Except.ok (v, st') → v ≠ PyVal.vnone →
    ∀ m, resolveFuel (m + 1) st' t = Except.ok (v, st') ∧
      resolveAsyncFuel (m + 1) st' t = Except.ok (v, st') := by
  intro st t reg n v st' hget hlife h hv m
  have hreg : dictGet st'.registry t = some reg := by
    rw [resolveFuel_registry h, hget]
  have hcache : cacheGet st'.singleton_instances t = v :=
    resolve_singleton_cache_at hget hlife h
  have hc : cacheGet st'.singleton_instances t ≠ PyVal.vnone := by
    rw [hcache]; exact hv
  constructor
  · rw [resolve_cache_hit m hreg hlife hc, hcache]
  · rw [resolveAsync_cache_hit m hreg hlife hc, hcache]

/-- C1 witness: a singleton with a fresh-object factory; after the first
resolve returns `obj 0`, the next sync and async resolves return the
identical `obj 0` without touching the state. -/
theorem c1_witness :
    resolveFuel 1 (⟨[exWregB], [(1, PyVal.obj 0)], 1, [(Mech.factoryCall, 1)]⟩ : ProviderState) 1 =
      Except.ok (PyVal.obj 0,
        (⟨[exWregB], [(1, PyVal.obj 0)], 1, [(Mech.factoryCall, 1)]⟩ : ProviderState)) ∧
    resolveAsyncFuel 1 (⟨[exWregB], [(1, PyVal.obj 0)], 1, [(Mech.factoryCall, 1)]⟩ : ProviderState) 1 =
      Except.ok (PyVal.obj 0,
        (⟨[exWregB], [(1, PyVal.obj 0)], 1, [(Mech.factoryCall, 1)]⟩ : ProviderState)) :=
  c1_singleton_identical_after_first ⟨[exWregB], [], 0, []⟩ 1 exWregB 1 (PyVal.obj 0)
    ⟨[exWregB], [(1, PyVal.obj 0)], 1, [(Mech.factoryCall, 1)]⟩ rfl rfl rfl (by decide) 0

/-- C1 counterexample: a Singleton whose factory returns `None`, on a built
Provider.  `build` runs the factory once, and each of the two subsequent
sequential resolves runs it again — three constructions, violating "the
factory is executed at most once" and "repeated sequential resolves never
construct a second instance". -/
theorem c1_counterexample :
    buildFuel 9 exC1st =
      Except.ok (⟨[exC1reg], [(0, PyVal.vnone)], 0, [(Mech.factoryCall, 0)]⟩ : ProviderState) ∧
    ((buildFuel 9 exC1st).bind (fun st1 =>
        (resolveFuel 3 st1 0).bind (fun p => resolveFuel 3 p.2 0))).map
      (fun p => countFact p.2.log 0) = Except.ok 3 ∧
    (3 : Nat) ≠ 1 :=
  ⟨rfl, rfl, by decide⟩

/-- C2 (amended): on a singleton-cache miss exactly one activation
mechanism runs, chosen in the priority order: factory first, then pre-built
instance, then constructorParams-driven default construction.  The factory
clause routes the whole resolution through the registered factory (its
result is cached, its error propagates) and records the factory call
immediately above the prior log; the instance clause leaves the log (and
everything but the cache) untouched; the default clause is the activation
result.  In particular a descriptor carrying both a pre-built instance and
a factory is resolved through the factory, not the instance. -/
theorem c2_activation_priority : ∀ st t reg n,
    dictGet st.registry t = some reg → reg.lifetime = Lifetime.singleton →
    cacheGet st.singleton_instances t = PyVal.vnone →
    (∀ f, reg.factory = some f →
      resolveFuel (n + 1) st t =
        (runFactoryFuel n st t f).map (fun p =>
          (p.1, { p.2 with
            singleton_instances := cacheSet p.2.singleton_instances t p.1 })) ∧
      ∀ v st1, runFactoryFuel n st t f = Except.ok (v, st1) →
        ∃ l, st1.log = l ++ (Mech.factoryCall, t) :: st.log) ∧
    (reg.factory = Option.none → reg.inst ≠ PyVal.vnone →
      resolveFuel (n + 1) st t =
        Except.ok (reg.inst,
          { st with singleton_instances := cacheSet st.singleton_instances t reg.inst })) ∧
    (reg.factory = Option.none → reg.inst = PyVal.vnone →
      ∀ v st1, activateFuel n st reg = Except.ok (v, st1) →
        resolveFuel (n + 1) st t =
          Except.ok (v,
            { st1 with singleton_instances := cacheSet st1.singleton_instances t v })) := by
  intro st t reg n hget hlife hc
  refine ⟨?_, ?_, ?_⟩
  · intro f hf
    constructor
    · simp only [resolveFuel, hget, hlife, if_pos hc, hf]
      cases hrf : runFactoryFuel n st t f with
      | error e => simp [hrf, Except.map]
      | ok p => simp [hrf, Except.map]
    · intro v st1 hrf
      exact (resolve_family_log n).2.2.2 st t f v st1 hrf
  · intro hf hi
    simp only [resolveFuel, hget, hlife, if_pos hc, hf, if_neg hi]
  · intro hf hi v st1 hact
    simp only [resolveFuel, hget, hlife, if_pos hc, hf, if_pos hi, hact]

/-- C2 witness: the factory clause at a concrete both-instance-and-factory
descriptor — resolve routes through the factory, which returns its object
`obj 9`, not the pre-built `obj 7`. -/
theorem c2_witness :
    resolveFuel 1 exC2st 0 =
      (runFactoryFuel 0 exC2st 0 (FactorySpec.retConst 9)).map (fun p =>
        (p.1, { p.2 with
          singleton_instances := cacheSet p.2.singleton_instances 0 p.1 })) ∧
    runFactoryFuel 0 exC2st 0 (FactorySpec.retConst 9) =
      Except.ok (PyVal.obj 9,
        (⟨[exC2reg], [], 0, [(Mech.factoryCall, 0)]⟩ : ProviderState)) ∧
    resolveFuel 1 exC2st 0 =
      Except.ok (PyVal.obj 9,
        (⟨[exC2reg], [(0, PyVal.obj 9)], 0, [(Mech.factoryCall, 0)]⟩ : ProviderState)) :=
  ⟨((c2_activation_priority exC2st 0 exC2reg 0 rfl rfl rfl).1
      (FactorySpec.retConst 9) rfl).1, rfl, rfl⟩

/-- C2 counterexample: a descriptor with a pre-built instance `obj 7` and a
factory returning `obj 9`.  `build` leaves it alone, and the first resolve
returns the factory's value `obj 9`, not the pre-built instance `obj 7` —
the claimed instance-before-factory priority is reversed in the code. -/
theorem c2_counterexample :
    buildFuel 9 exC2st = Except.ok exC2st ∧
    (resolveFuel 3 exC2st 0).map Prod.fst = Except.ok (PyVal.obj 9) ∧
    exC2reg.inst = PyVal.obj 7 ∧
    PyVal.obj 9 ≠ PyVal.obj 7 ∧
    (resolveFuel 3 exC2st 0).map (fun p => countFact p.2.log 0) = Except.ok 1 :=
  ⟨rfl, rfl, rfl, by decide, rfl⟩

/-- C10: a Singleton whose factory returns `None` is cached as `None`, which
the cache lookup cannot tell from a miss; the next `resolve` and the next
`resolve_async` each re-enter the construction path and run the factory
again, so at-most-once construction fails for `None`-valued instances. -/
theorem c10_none_instance_defeats_cache : ∀ st t reg n m,
    dictGet st.registry t = some reg → reg.lifetime = Lifetime.singleton →
    reg.factory = some FactorySpec.retNone →
    cacheGet st.singleton_instances t = PyVal.vnone →
    resolveFuel (n + 1) st t =
      Except.ok (PyVal.vnone,
        { st with singleton_instances := cacheSet st.singleton_instances t PyVal.vnone,
                  log := (Mech.factoryCall, t) :: st.log }) ∧
    cacheGet (cacheSet st.singleton_instances t PyVal.vnone) t = PyVal.vnone ∧
    resolveAsyncFuel (m + 1)
        { st with singleton_instances := cacheSet st.singleton_instances t PyVal.vnone,
                  log := (Mech.factoryCall, t) :: st.log } t =
      Except.ok (PyVal.vnone,
        { st with
          singleton_instances :=
            cacheSet (cacheSet st.singleton_instances t PyVal.vnone) t PyVal.vnone,
          log := (Mech.factoryCall, t) :: (Mech.factoryCall, t) :: st.log }) ∧
    countFact ((Mech.factoryCall, t) :: (Mech.factoryCall, t) :: st.log) t =
      countFact st.log t + 2 := by
  intro st t reg n m hget hlife hf hc
  have hc2 : cacheGet (cacheSet st.singleton_instances t PyVal.vnone) t = PyVal.vnone :=
    cacheGet_cacheSet_self st.singleton_instances t PyVal.vnone
  refine ⟨?_, hc2, ?_, ?_⟩
  · simp only [resolveFuel, hget, hlife, if_pos hc, hf, runFactoryFuel_retNone]
  · simp only [resolveAsyncFuel, hget, hlife, if_pos hc2, hf, runFactoryFuel_retNone]
  · simp [countFact_cons]
    omega

/-- C10 witness: the concrete `None`-returning singleton factory, resolved
once synchronously and once asynchronously — two factory runs. -/
theorem c10_witness :
    dictGet exC1st.registry 0 = some exC1reg ∧
    resolveFuel 1 exC1st 0 =
      Except.ok (PyVal.vnone,
        (⟨[exC1reg], [(0, PyVal.vnone)], 0, [(Mech.factoryCall, 0)]⟩ : ProviderState)) ∧
    resolveAsyncFuel 1 (⟨[exC1reg], [(0, PyVal.vnone)], 0, [(Mech.factoryCall, 0)]⟩ : ProviderState) 0 =
      Except.ok (PyVal.vnone,
        (⟨[exC1reg], [(0, PyVal.vnone)], 0,
          [(Mech.factoryCall, 0), (Mech.factoryCall, 0)]⟩ : ProviderState)) :=
  ⟨rfl, (c10_none_instance_defeats_cache exC1st 0 exC1reg 0 0 rfl rfl rfl rfl).1,
    (c10_none_instance_defeats_cache exC1st 0 exC1reg 0 0 rfl rfl rfl rfl).2.2.1⟩

end Depi

/-! ## Claims C3 and C8: registry semantics -/

namespace Depi

theorem get_type_deps_missing (ty : Nat) : ∀ (sig : List (Nat × Option Nat)) (nm : Nat),
    (nm, (Option.none : Option Nat)) ∈ sig →
    ∃ nm2, get_type_dependencies ty sig = Except.error (DIError.missingDepAnnot nm2 ty) := by
  intro sig
  induction sig with
  | nil => intro nm h; simp at h
  | cons p rest ih =>
    intro nm h
    obtain ⟨a, oa⟩ := p
    cases oa with
    | none => exact ⟨a, rfl⟩
    | some x =>
      have hmem : (nm, (Option.none : Option Nat)) ∈ rest := by
        rcases List.mem_cons.mp h with h1 | h2
        · simp at h1
        · exact h2
      obtain ⟨nm2, hh⟩ := ih nm hmem
      refine ⟨nm2, ?_⟩
      simp only [get_type_dependencies, hh]

theorem get_type_deps_ok (ty : Nat) : ∀ sig : List (Nat × Option Nat),
    (∀ p, p ∈ sig → (p.2 : Option Nat).isSome) →
    ∃ ds, get_type_dependencies ty sig = Except.ok ds := by
  intro sig
  induction sig with
  | nil => intro _; exact ⟨[], rfl⟩
  | cons p rest ih =>
    intro h
    obtain ⟨a, oa⟩ := p
    cases oa with
    | none =>
      have := h (a, Option.none) (List.mem_cons_self _ _)
      simp at this
    | some x =>
      obtain ⟨ds, hds⟩ := ih (fun q hq => h q (List.mem_cons_of_mem _ hq))
      exact ⟨⟨a, x⟩ :: ds, by simp only [get_type_dependencies, hds]⟩

/-- C3 (amended): re-registering an identity replaces the prior descriptor
(last write wins); but because a built Provider aliases its
ServiceCollection's container dict, a re-registration performed after
`build` IS visible to the built Provider: resolving the identity consults
the updated registry (second clause — the new factory runs), except that a
Singleton identity whose instance is already in the singleton cache keeps
returning the cached instance (third clause). -/
theorem c3_last_write_wins_alias :
    (∀ container dep impl sig life inst0 fac c',
      registerDependency container dep impl sig life inst0 fac = Except.ok c' →
      ∃ ps, dictGet c' dep = some ⟨dep, impl.getD dep, life, inst0, fac, ps⟩) ∧
    (∀ (st : ProviderState) (r : Registration) f n,
      r.lifetime = Lifetime.transient → r.factory = some f →
      resolveFuel (n + 1) { st with registry := dictInsert st.registry r } r.dependency_type =
        runFactoryFuel n { st with registry := dictInsert st.registry r }
          r.dependency_type f) ∧
    (∀ (st : ProviderState) (r : Registration) n,
      r.lifetime = Lifetime.singleton →
      cacheGet st.singleton_instances r.dependency_type ≠ PyVal.vnone →
      resolveFuel (n + 1) { st with registry := dictInsert st.registry r } r.dependency_type =
        Except.ok (cacheGet st.singleton_instances r.dependency_type,
          { st with registry := dictInsert st.registry r })) := by
  refine ⟨?_, ?_, ?_⟩
  · intro container dep impl sig life inst0 fac c' h
    cases fac with
    | some f =>
      simp only [registerDependency, Except.ok.injEq] at h
      subst h
      exact ⟨[], dictGet_dictInsert_self container _⟩
    | none =>
      cases hty : get_type_dependencies (impl.getD dep) sig with
      | error e => simp only [registerDependency, hty] at h; exact absurd h (by simp)
      | ok ds =>
        simp only [registerDependency, hty, Except.ok.injEq] at h
        subst h
        exact ⟨ds, dictGet_dictInsert_self container _⟩
  · intro st r f n hlife hf
    have hget : dictGet ({ st with registry := dictInsert st.registry r } :
        ProviderState).registry r.dependency_type = some r :=
      dictGet_dictInsert_self st.registry r
    simp only [resolveFuel, hget, hlife, hf]
  · intro st r n hlife hc
    have hget : dictGet ({ st with registry := dictInsert st.registry r } :
        ProviderState).registry r.dependency_type = some r :=
      dictGet_dictInsert_self st.registry r
    exact resolve_cache_hit n hget hlife hc

/-- C3 witness: all three clauses at concrete inputs — a registration is
replaced by a later one; a built provider resolves the re-registered
transient through the new factory; a cached singleton stays cached. -/
theorem c3_witness :
    (∃ ps, dictGet [exC3reg2] 0 =
      some ⟨0, 101, Lifetime.transient, PyVal.vnone, some (FactorySpec.retConst 5), ps⟩) ∧
    resolveFuel 1 (⟨dictInsert [exC3reg] exC3reg2, [], 0, []⟩ : ProviderState) 0 =
      runFactoryFuel 0 (⟨dictInsert [exC3reg] exC3reg2, [], 0, []⟩ : ProviderState) 0
        (FactorySpec.retConst 5) ∧
    runFactoryFuel 0 (⟨dictInsert [exC3reg] exC3reg2, [], 0, []⟩ : ProviderState) 0
        (FactorySpec.retConst 5) =
      Except.ok (PyVal.obj 5,
        (⟨dictInsert [exC3reg] exC3reg2, [], 0, [(Mech.factoryCall, 0)]⟩ : ProviderState)) ∧
    resolveFuel 1
        (⟨dictInsert [] (⟨0, 102, Lifetime.singleton, PyVal.vnone, Option.none, []⟩ : Registration),
          [(0, PyVal.obj 3)], 0, []⟩ : ProviderState) 0 =
      Except.ok (PyVal.obj 3,
        (⟨dictInsert [] (⟨0, 102, Lifetime.singleton, PyVal.vnone, Option.none, []⟩ : Registration),
          [(0, PyVal.obj 3)], 0, []⟩ : ProviderState)) :=
  ⟨c3_last_write_wins_alias.1 [exC3reg] 0 (some 101) [] Lifetime.transient PyVal.vnone
      (some (FactorySpec.retConst 5)) [exC3reg2] rfl,
    c3_last_write_wins_alias.2.1 ⟨[exC3reg], [], 0, []⟩ exC3reg2 (FactorySpec.retConst 5) 0 rfl rfl,
    rfl,
    c3_last_write_wins_alias.2.2 ⟨[], [(0, PyVal.obj 3)], 0, []⟩
      ⟨0, 102, Lifetime.singleton, PyVal.vnone, Option.none, []⟩ 0 rfl (by decide)⟩

/-- C3 counterexample: build a provider over a transient whose factory
returns `obj 3`; re-register the identity with a factory returning `obj 5`
on the (aliased) collection; the already-built provider now resolves
`obj 5` — the re-registration did affect the built Provider. -/
theorem c3_counterexample :
    buildFuel 9 exC3st = Except.ok exC3st ∧
    (resolveFuel 3 exC3st 0).map Prod.fst = Except.ok (PyVal.obj 3) ∧
    ((resolveFuel 3 exC3st 0).bind (fun p =>
        resolveFuel 3 { p.2 with registry := dictInsert p.2.registry exC3reg2 } 0)).map
      Prod.fst = Except.ok (PyVal.obj 5) ∧
    PyVal.obj 5 ≠ PyVal.obj 3 :=
  ⟨rfl, rfl, rfl, by decide⟩

/-- C8 (amended): the registry introspects the concrete type's constructor
if and only if no factory is supplied — a pre-built instance does NOT
suppress introspection.  With a factory, registration succeeds with empty
constructor parameters whatever the signature; without one, a parameter
lacking an annotation fails registration itself with
`MissingDependencyAnnotation` (before any provider exists), and a fully
annotated signature registers its introspected parameter list. -/
theorem c8_introspect_iff_no_factory :
    (∀ container dep impl (sig : List (Nat × Option Nat)) life inst0 f,
      registerDependency container dep impl sig life inst0 (some f) =
        Except.ok (dictInsert container ⟨dep, impl.getD dep, life, inst0, some f, []⟩)) ∧
    (∀ container dep impl sig life inst0 nm, (nm, (Option.none : Option Nat)) ∈ sig →
      ∃ nm2, registerDependency container dep impl sig life inst0 Option.none =
        Except.error (DIError.missingDepAnnot nm2 (impl.getD dep))) ∧
    (∀ container dep impl sig life inst0, (∀ p, p ∈ sig → (p.2 : Option Nat).isSome) →
      ∃ ds, get_type_dependencies (impl.getD dep) sig = Except.ok ds ∧
        registerDependency container dep impl sig life inst0 Option.none =
          Except.ok (dictInsert container ⟨dep, impl.getD dep, life, inst0, Option.none, ds⟩)) := by
  refine ⟨?_, ?_, ?_⟩
  · intro container dep impl sig life inst0 f
    rfl
  · intro container dep impl sig life inst0 nm hmem
    obtain ⟨nm2, hh⟩ := get_type_deps_missing (impl.getD dep) sig nm hmem
    refine ⟨nm2, ?_⟩
    simp only [registerDependency, hh]
  · intro container dep impl sig life inst0 hall
    obtain ⟨ds, hds⟩ := get_type_deps_ok (impl.getD dep) sig hall
    exact ⟨ds, hds, by simp only [registerDependency, hds]⟩

/-- C8 witness: with a factory, a hopeless signature is never inspected;
without one, an unannotated parameter aborts registration; a fully
annotated signature registers its parameter list. -/
theorem c8_witness :
    registerDependency [] 0 (some 1) [(7, Option.none)] Lifetime.transient PyVal.vnone
        (some FactorySpec.mkFresh) =
      Except.ok [⟨0, 1, Lifetime.transient, PyVal.vnone, some FactorySpec.mkFresh, []⟩] ∧
    (∃ nm2, registerDependency [] 0 (some 1) [(7, Option.none)] Lifetime.transient PyVal.vnone
        Option.none = Except.error (DIError.missingDepAnnot nm2 1)) ∧
    (∃ ds, get_type_dependencies 1 [(7, some 3)] = Except.ok ds ∧
      registerDependency [] 0 (some 1) [(7, some 3)] Lifetime.transient PyVal.vnone
          Option.none =
        Except.ok (dictInsert [] ⟨0, 1, Lifetime.transient, PyVal.vnone, Option.none, ds⟩)) :=
  ⟨c8_introspect_iff_no_factory.1 [] 0 (some 1) [(7, Option.none)] Lifetime.transient
      PyVal.vnone FactorySpec.mkFresh,
    c8_introspect_iff_no_factory.2.1 [] 0 (some 1) [(7, Option.none)] Lifetime.transient
      PyVal.vnone 7 (List.mem_singleton.mpr rfl),
    c8_introspect_iff_no_factory.2.2 [] 0 (some 1) [(7, some 3)] Lifetime.transient
      PyVal.vnone (by decide)⟩

/-- C8 counterexample: a registration supplying a pre-built instance (and no
factory) for an implementation whose constructor has an unannotated
parameter.  The claim says introspection must not run here; the code
introspects anyway and the registration fails with the missing-annotation
error. -/
theorem c8_counterexample :
    PyVal.obj 5 ≠ PyVal.vnone ∧
    registerDependency [] 0 (some 1) [(0, Option.none)] Lifetime.singleton (PyVal.obj 5)
        Option.none =
      Except.error (DIError.missingDepAnnot 0 1) :=
  ⟨by decide, rfl⟩

end Depi

/-! ## Claim C9: scoped lifetime -/

namespace Depi

theorem scope_family_registry : ∀ n : Nat,
    (∀ st sc t v st' sc', scopeResolveFuel n st sc t = Except.ok (v, st', sc') →
      st'.registry = st.registry) ∧
    (∀ st sc ps st' sc', scopeParamsFuel n st sc ps = Except.ok (st', sc') →
      st'.registry = st.registry) ∧
    (∀ st sc t f v st' sc', scopeRunFactoryFuel n st sc t f = Except.ok (v, st', sc') →
      st'.registry = st.registry) := by
  intro n
  induction n with
  | zero =>
    refine ⟨?_, ?_, ?_⟩
    · intro st sc t v st' sc' h; simp [scopeResolveFuel] at h
    · intro st sc ps st' sc' h; simp [scopeParamsFuel] at h
    · intro st sc t f v st' sc' h
      cases f with
      | mkFresh => exact (scopeRunFactoryFuel_pure_state (by simp) h).1
      | retNone => exact (scopeRunFactoryFuel_pure_state (by simp) h).1
      | retConst k => exact (scopeRunFactoryFuel_pure_state (by simp) h).1
      | resolveId u => simp [scopeRunFactoryFuel] at h
  | succ n ih =>
    obtain ⟨ihr, ihp, ihf⟩ := ih
    refine ⟨?_, ?_, ?_⟩
    · intro st sc t v st' sc' h
      simp only [scopeResolveFuel] at h
      cases hget : dictGet st.registry t with
      | none => simp only [hget] at h; exact absurd h (by simp)
      | some reg =>
        simp only [hget] at h
        cases hlife : reg.lifetime <;> simp only [hlife] at h
        · -- singleton: delegate to the provider
          cases hres : resolveFuel n st t with
          | error e => simp only [hres] at h; exact absurd h (by simp)
          | ok q =>
            simp only [hres, Except.ok.injEq, Prod.mk.injEq] at h
            obtain ⟨hv, hst, hsc⟩ := h
            subst hst
            have hres2 : resolveFuel n st t = Except.ok (q.1, q.2) := hres
            exact resolveFuel_registry hres2
        · -- transient
          cases hf : reg.factory with
          | some f =>
            simp only [hf] at h
            exact ihf st sc t f v st' sc' h
          | none =>
            simp only [hf] at h
            cases hps : scopeParamsFuel n st sc reg.constructor_params with
            | error e => simp only [hps] at h; exact absurd h (by simp)
            | ok q =>
              simp only [hps, Except.ok.injEq, Prod.mk.injEq] at h
              obtain ⟨hv, hst, hsc⟩ := h
              subst hst
              have := ihp st sc reg.constructor_params q.1 q.2 (by rw [hps])
              simpa [mkInstance] using this
        · -- scoped
          by_cases hc : cacheGet sc.scoped_instances t = PyVal.vnone
          · simp only [if_pos hc] at h
            cases hf : reg.factory with
            | some f =>
              simp only [hf] at h
              cases hrf : scopeRunFactoryFuel n st sc t f with
              | error e => simp only [hrf] at h; exact absurd h (by simp)
              | ok p =>
                simp only [hrf, Except.ok.injEq, Prod.mk.injEq] at h
                obtain ⟨hv, hst, hsc⟩ := h
                subst hst
                exact ihf st sc t f p.1 p.2.1 p.2.2 (by rw [hrf])
            | none =>
              simp only [hf] at h
              cases hps : scopeParamsFuel n st sc reg.constructor_params with
              | error e => simp only [hps] at h; exact absurd h (by simp)
              | ok q =>
                simp only [hps, Except.ok.injEq, Prod.mk.injEq] at h
                obtain ⟨hv, hst, hsc⟩ := h
                subst hst
                have := ihp st sc reg.constructor_params q.1 q.2 (by rw [hps])
                simpa [mkInstance] using this
          · simp only [if_neg hc, Except.ok.injEq, Prod.mk.injEq] at h
            obtain ⟨hv, hst, hsc⟩ := h
            subst hst
            rfl
    · intro st sc ps st' sc' h
      cases ps with
      | nil =>
        simp only [scopeParamsFuel, Except.ok.injEq, Prod.mk.injEq] at h
        obtain ⟨hst, hsc⟩ := h
        subst hst
        rfl
      | cons p rest =>
        simp only [scopeParamsFuel] at h
        cases hres : scopeResolveFuel n st sc p.dependency_type with
        | error e => simp only [hres] at h; exact absurd h (by simp)
        | ok q =>
          simp only [hres] at h
          have h1 := ihr st sc p.dependency_type q.1 q.2.1 q.2.2 (by rw [hres])
          have h2 := ihp q.2.1 q.2.2 rest st' sc' h
          rw [h2, h1]
    · intro st sc t f v st' sc' h
      cases f with
      | mkFresh => exact (scopeRunFactoryFuel_pure_state (by simp) h).1
      | retNone => exact (scopeRunFactoryFuel_pure_state (by simp) h).1
      | retConst k => exact (scopeRunFactoryFuel_pure_state (by simp) h).1
      | resolveId u =>
        rw [scopeRunFactoryFuel_resolveId] at h
        have := ihr { st with log := (Mech.factoryCall, t) :: st.log } sc u v st' sc' h
        simpa using this

/-- After a successful scoped resolve, the scope's own cache holds the
returned value at the resolved identity (the `insts[_type] = inst` write on
line 545 is the last scope-cache effect). -/
theorem scopeResolve_scoped_cache_at {n : Nat} {st : ProviderState} {sc : ScopeState}
    {t : Nat} {reg : Registration} {v : PyVal} {st' : ProviderState} {sc' : ScopeState}
    (hget : dictGet st.registry t = some reg) (hlife : reg.lifetime = Lifetime.scoped)
    (h : scopeResolveFuel n st sc t = Except.ok (v, st', sc')) :
    cacheGet sc'.scoped_instances t = v := by
  cases n with
  | zero => simp [scopeResolveFuel] at h
  | succ n =>
    simp only [scopeResolveFuel, hget, hlife] at h
    by_cases hc : cacheGet sc.scoped_instances t = PyVal.vnone
    · simp only [if_pos hc] at h
      cases hf : reg.factory with
      | some f =>
        simp only [hf] at h
        cases hrf : scopeRunFactoryFuel n st sc t f with
        | error e => simp only [hrf] at h; exact absurd h (by simp)
        | ok p =>
          simp only [hrf, Except.ok.injEq, Prod.mk.injEq] at h
          obtain ⟨hv, hst, hsc⟩ := h
          subst hsc
          simp [cacheGet_cacheSet_self, hv]
      | none =>
        simp only [hf] at h
        cases hps : scopeParamsFuel n st sc reg.constructor_params with
        | error e => simp only [hps] at h; exact absurd h (by simp)
        | ok q =>
          simp only [hps, Except.ok.injEq, Prod.mk.injEq] at h
          obtain ⟨hv, hst, hsc⟩ := h
          subst hsc
          simp [cacheGet_cacheSet_self, hv]
    · simp only [if_neg hc, Except.ok.injEq, Prod.mk.injEq] at h
      obtain ⟨hv, hst, hsc⟩ := h
      subst hsc
      exact hv

/-- C9 (amended): within one Scope, once a scoped resolve has produced a
non-`None` instance, every subsequent resolve on that same Scope returns
the identical cached instance and changes nothing (first clause); two
distinct Scopes never consult each other's cache — each performs its own
construction, and for default activation the two constructions yield
distinct fresh instances (second clause).  (The provisos are forced by the
counterexample: a `None`-valued scoped instance is re-constructed on every
resolve, and a constant factory returns the identical object to both
scopes.) -/
theorem c9_scoped_locality :
    (∀ st sc t reg n v st' sc',
      dictGet st.registry t = some reg → reg.lifetime = Lifetime.scoped →
      scopeResolveFuel n st sc t = Except.ok (v, st', sc') → v ≠ PyVal.vnone →
      ∀ m, scopeResolveFuel (m + 1) st' sc' t = Except.ok (v, st', sc')) ∧
    (∀ (st : ProviderState) (t : Nat) reg n,
      dictGet st.registry t = some reg → reg.lifetime = Lifetime.scoped →
      reg.factory = Option.none → reg.constructor_params = [] →
      scopeResolveFuel (n + 2) st createScope t =
        Except.ok (PyVal.obj st.alloc,
          { st with alloc := st.alloc + 1, log := (Mech.defaultCtor, t) :: st.log },
          ⟨[(t, PyVal.obj st.alloc)]⟩) ∧
      scopeResolveFuel (n + 2)
          { st with alloc := st.alloc + 1, log := (Mech.defaultCtor, t) :: st.log }
          createScope t =
        Except.ok (PyVal.obj (st.alloc + 1),
          { st with alloc := st.alloc + 1 + 1,
                    log := (Mech.defaultCtor, t) :: (Mech.defaultCtor, t) :: st.log },
          ⟨[(t, PyVal.obj (st.alloc + 1))]⟩) ∧
      PyVal.obj st.alloc ≠ PyVal.obj (st.alloc + 1)) := by
  constructor
  · intro st sc t reg n v st' sc' hget hlife h hv m
    have hreg : dictGet st'.registry t = some reg := by
      rw [(scope_family_registry n).1 st sc t v st' sc' h, hget]
    have hsc : cacheGet sc'.scoped_instances t = v :=
      scopeResolve_scoped_cache_at hget hlife h
    have hc : ¬ cacheGet sc'.scoped_instances t = PyVal.vnone := by
      rw [hsc]; exact hv
    simp only [scopeResolveFuel, hreg, hlife, if_neg hc]
    rw [hsc]
  · intro st t reg n hget hlife hf hps
    refine ⟨?_, ?_, by simp⟩
    · simp [scopeResolveFuel, hget, hlife, hf, hps, scopeParamsFuel,
        mkInstance, createScope, cacheSet, cacheGet]
    · simp [scopeResolveFuel, hget, hlife, hf, hps, scopeParamsFuel,
        mkInstance, createScope, cacheSet, cacheGet]

/-- C9 witness: a scoped constant factory — a second resolve in the same
scope returns the cached instance unchanged — and a scoped
default-activated registration resolved in two fresh scopes, yielding the
distinct fresh objects `obj 0` and `obj 1`. -/
theorem c9_witness :
    scopeResolveFuel 1 (⟨[exC9regK], [], 0, [(Mech.factoryCall, 0)]⟩ : ProviderState)
        (⟨[(0, PyVal.obj 5)]⟩ : ScopeState) 0 =
      Except.ok (PyVal.obj 5, (⟨[exC9regK], [], 0, [(Mech.factoryCall, 0)]⟩ : ProviderState),
        (⟨[(0, PyVal.obj 5)]⟩ : ScopeState)) ∧
    (scopeResolveFuel 2
        (⟨[⟨0, 100, Lifetime.scoped, PyVal.vnone, Option.none, []⟩], [], 0, []⟩ : ProviderState)
        createScope 0 =
      Except.ok (PyVal.obj 0,
        (⟨[⟨0, 100, Lifetime.scoped, PyVal.vnone, Option.none, []⟩], [], 1,
          [(Mech.defaultCtor, 0)]⟩ : ProviderState),
        (⟨[(0, PyVal.obj 0)]⟩ : ScopeState)) ∧
      scopeResolveFuel 2
          (⟨[⟨0, 100, Lifetime.scoped, PyVal.vnone, Option.none, []⟩], [], 1,
            [(Mech.defaultCtor, 0)]⟩ : ProviderState)
          createScope 0 =
        Except.ok (PyVal.obj 1,
          (⟨[⟨0, 100, Lifetime.scoped, PyVal.vnone, Option.none, []⟩], [], 2,
            [(Mech.defaultCtor, 0), (Mech.defaultCtor, 0)]⟩ : ProviderState),
          (⟨[(0, PyVal.obj 1)]⟩ : ScopeState)) ∧
      PyVal.obj 0 ≠ PyVal.obj 1) :=
  ⟨c9_scoped_locality.1 ⟨[exC9regK], [], 0, []⟩ createScope 0 exC9regK 3 (PyVal.obj 5)
      ⟨[exC9regK], [], 0, [(Mech.factoryCall, 0)]⟩ ⟨[(0, PyVal.obj 5)]⟩ rfl rfl rfl
      (by decide) 0,
    c9_scoped_locality.2
      ⟨[⟨0, 100, Lifetime.scoped, PyVal.vnone, Option.none, []⟩], [], 0, []⟩ 0
      ⟨0, 100, Lifetime.scoped, PyVal.vnone, Option.none, []⟩ 0 rfl rfl rfl rfl⟩

/-- C9 counterexample: (i) a scoped factory returning `None` — two resolves
in the SAME scope run the factory twice, so the second resolve does not
return a cached instance; (ii) a scoped constant factory — two DISTINCT
scopes both return the identical instance `obj 5`, so cross-scope
resolutions do not construct distinct instances. -/
theorem c9_counterexample :
    ((scopeResolveFuel 3 ⟨[exC9regN], [], 0, []⟩ createScope 0).bind (fun p =>
        scopeResolveFuel 3 p.2.1 p.2.2 0)).map (fun p => countFact p.2.1.log 0) =
      Except.ok 2 ∧
    (2 : Nat) ≠ 1 ∧
    (scopeResolveFuel 3 ⟨[exC9regK], [], 0, []⟩ createScope 0).map (fun p => p.1) =
      Except.ok (PyVal.obj 5) ∧
    ((scopeResolveFuel 3 ⟨[exC9regK], [], 0, []⟩ createScope 0).bind (fun p =>
        scopeResolveFuel 3 p.2.1 createScope 0)).map (fun p => p.1) =
      Except.ok (PyVal.obj 5) :=
  ⟨rfl, by decide, rfl, rfl⟩

end Depi

/-! ## DFS success invariants -/

namespace Depi

/-- What a successful `dfs` call guarantees: the output order only grows at
the end; the visited set grows monotonically, ends up containing the
argument's implementation type, and only ever acquires implementation
types that were not on the stack; the `GoodState` invariant is preserved;
and every new order entry is reachable from the argument. -/
theorem dfs_ok_spec (registry : List Registration) : ∀ n : Nat,
    (∀ visiting ds d ds', d ∈ registry →
      dfsFuel registry n visiting ds d = Except.ok ds' →
      (∃ tl, ds'.order = ds.order ++ tl) ∧
      (∀ x, x ∈ ds.visited → x ∈ ds'.visited) ∧
      d.implementation_type ∈ ds'.visited ∧
      (∀ x, x ∈ ds'.visited → x ∈ ds.visited ∨ x ∉ visiting) ∧
      (GoodState registry ds → GoodState registry ds') ∧
      (∀ r, r ∈ ds'.order → r ∈ ds.order ∨ Relation.ReflTransGen (EdgeC registry) d r)) ∧
    (∀ visiting ds q ps ds', q ∈ registry → (∀ p, p ∈ ps → p ∈ q.constructor_params) →
      dfsParamsFuel registry n visiting ds q ps = Except.ok ds' →
      (∃ tl, ds'.order = ds.order ++ tl) ∧
      (∀ x, x ∈ ds.visited → x ∈ ds'.visited) ∧
      (∀ p, p ∈ ps → ∀ r', dictGet registry p.dependency_type = some r' →
        r'.implementation_type ∈ ds'.visited) ∧
      (∀ x, x ∈ ds'.visited → x ∈ ds.visited ∨ x ∉ visiting) ∧
      (GoodState registry ds → GoodState registry ds') ∧
      (∀ r, r ∈ ds'.order → r ∈ ds.order ∨ ∃ p nx, p ∈ ps ∧
        dictGet registry p.dependency_type = some nx ∧
        Relation.ReflTransGen (EdgeC registry) nx r) ∧
      (∀ p, p ∈ ps → (dictGet registry p.dependency_type).isSome)) := by
  intro n
  induction n with
  | zero =>
    constructor
    · intro visiting ds d ds' _ h; simp [dfsFuel] at h
    · intro visiting ds q ps ds' _ _ h; simp [dfsParamsFuel] at h
  | succ n ih =>
    obtain ⟨ihd, ihp⟩ := ih
    constructor
    · intro visiting ds d ds' hd h
      simp only [dfsFuel] at h
      by_cases hv : d.implementation_type ∈ ds.visited
      · simp only [if_pos hv, Except.ok.injEq] at h
        subst h
        exact ⟨⟨[], by simp⟩, fun x hx => hx, hv, fun x hx => Or.inl hx,
          fun g => g, fun r hr => Or.inl hr⟩
      · simp only [if_neg hv] at h
        by_cases hvis : d.implementation_type ∈ visiting
        · simp only [if_pos hvis] at h; exact absurd h (by simp)
        · simp only [if_neg hvis] at h
          cases hps : dfsParamsFuel registry n (d.implementation_type :: visiting) ds d
              d.constructor_params with
          | error e => simp only [hps] at h; exact absurd h (by simp)
          | ok ds1 =>
            simp only [hps, Except.ok.injEq] at h
            subst h
            obtain ⟨⟨tl, htl⟩, hmono, htargets, hfresh, hgood, hprov, hsome⟩ :=
              ihp (d.implementation_type :: visiting) ds d d.constructor_params ds1 hd
                (fun p hp => hp) hps
            have hdnotin1 : d.implementation_type ∉ ds1.visited := by
              intro hmem
              rcases hfresh _ hmem with hin | hnotin
              · exact hv hin
              · exact hnotin (List.mem_cons_self _ _)
            refine ⟨⟨tl ++ [d], by simp [htl]⟩,
              fun x hx => List.mem_cons_of_mem _ (hmono x hx),
              List.mem_cons_self _ _, ?_, ?_, ?_⟩
            · intro x hx
              rcases List.mem_cons.mp hx with hx | hx
              · subst hx; exact Or.inr hvis
              · rcases hfresh x hx with hin | hnotin
                · exact Or.inl hin
                · exact Or.inr (fun hmem => hnotin (List.mem_cons_of_mem _ hmem))
            · intro g
              have g1 := hgood g
              refine ⟨?_, ?_, ?_, ?_, ?_⟩
              · intro r hr
                rcases List.mem_append.mp hr with hr | hr
                · exact g1.mem r hr
                · rw [List.mem_singleton.mp hr]; exact hd
              · intro x
                constructor
                · intro hx
                  rcases List.mem_cons.mp hx with hx | hx
                  · exact ⟨d, List.mem_append_right _ (List.mem_singleton.mpr rfl), hx.symm⟩
                  · obtain ⟨r, hr, hri⟩ := (g1.vis x).mp hx
                    exact ⟨r, List.mem_append_left _ hr, hri⟩
                · rintro ⟨r, hr, hri⟩
                  rcases List.mem_append.mp hr with hr | hr
                  · exact List.mem_cons_of_mem _ ((g1.vis x).mpr ⟨r, hr, hri⟩)
                  · rw [List.mem_singleton.mp hr] at hri
                    rw [← hri]
                    exact List.mem_cons_self _ _
              · rw [List.map_append]
                rw [List.nodup_append]
                refine ⟨g1.nodup, List.nodup_singleton _, ?_⟩
                intro x hx hx2
                simp only [List.map_cons, List.map_nil, List.mem_singleton] at hx2
                subst hx2
                obtain ⟨r, hr, hri⟩ := List.mem_map.mp hx
                exact hdnotin1 ((g1.vis _).mpr ⟨r, hr, hri⟩)
              · intro j r hj p hp r' hr'
                rcases Nat.lt_or_ge j ds1.order.length with hlt | hge
                · have hj1 : ds1.order.get? j = some r := by
                    rw [← List.get?_append hlt]; exact hj
                  obtain ⟨i, hij, r2, hr2, hr2i⟩ := g1.closed j r hj1 p hp r' hr'
                  have hilt : i < ds1.order.length := lt_trans hij hlt
                  exact ⟨i, hij, r2, by rw [List.get?_append hilt]; exact hr2, hr2i⟩
                · have hj2 : ([d].get? (j - ds1.order.length)) = some r := by
                    rw [← List.get?_append_right hge]; exact hj
                  have hj0 : j - ds1.order.length = 0 ∧ r = d := by
                    cases hsub : j - ds1.order.length with
                    | zero => rw [hsub] at hj2; simp at hj2; exact ⟨rfl, hj2.symm⟩
                    | succ k => rw [hsub] at hj2; simp at hj2
                  obtain ⟨hj0, hrd⟩ := hj0
                  subst hrd
                  have hjlen : j = ds1.order.length := by omega
                  have himpl : r'.implementation_type ∈ ds1.visited := htargets p hp r' hr'
                  obtain ⟨r2, hr2, hr2i⟩ := (g1.vis _).mp himpl
                  obtain ⟨i, hi⟩ := List.get?_of_mem hr2
                  have hilt : i < ds1.order.length := by
                    rcases List.get?_eq_some.mp hi with ⟨hh, _⟩
                    exact hh
                  refine ⟨i, by omega, r2, ?_, hr2i⟩
                  rw [List.get?_append hilt]; exact hi
              · intro r hr p hp
                rcases List.mem_append.mp hr with hr | hr
                · exact g1.paramsReg r hr p hp
                · rw [List.mem_singleton.mp hr] at hp
                  exact hsome p hp
            · intro r hr
              rcases List.mem_append.mp hr with hr | hr
              · rcases hprov r hr with hin | ⟨p, nx, hp, hnx, hreach⟩
                · exact Or.inl hin
                · exact Or.inr (Relation.ReflTransGen.head ⟨p, hp, hnx⟩ hreach)
              · rw [List.mem_singleton.mp hr]
                exact Or.inr Relation.ReflTransGen.refl
    · intro visiting ds q ps ds' hq hsub h
      cases ps with
      | nil =>
        simp only [dfsParamsFuel, Except.ok.injEq] at h
        subst h
        refine ⟨⟨[], by simp⟩, fun x hx => hx, ?_, fun x hx => Or.inl hx,
          fun g => g, fun r hr => Or.inl hr, ?_⟩
        · intro p hp; simp at hp
        · intro p hp; simp at hp
      | cons p rest =>
        simp only [dfsParamsFuel] at h
        cases hget : dictGet registry p.dependency_type with
        | none => simp only [hget] at h; exact absurd h (by simp)
        | some next =>
          simp only [hget] at h
          cases hdfs : dfsFuel registry n visiting ds next with
          | error e => simp only [hdfs] at h; exact absurd h (by simp)
          | ok ds1 =>
            simp only [hdfs] at h
            obtain ⟨⟨tl1, htl1⟩, hmono1, hnext, hfresh1, hgood1, hprov1⟩ :=
              ihd visiting ds next ds1 (dictGet_mem hget) hdfs
            obtain ⟨⟨tl2, htl2⟩, hmono2, htargets2, hfresh2, hgood2, hprov2, hsome2⟩ :=
              ihp visiting ds1 q rest ds' hq
                (fun p' hp' => hsub p' (List.mem_cons_of_mem _ hp')) h
            refine ⟨⟨tl1 ++ tl2, by rw [htl2, htl1, List.append_assoc]⟩,
              fun x hx => hmono2 x (hmono1 x hx), ?_, ?_, ?_, ?_, ?_⟩
            · intro p' hp' r' hr'
              rcases List.mem_cons.mp hp' with hp' | hp'
              · subst hp'
                rw [hget] at hr'
                cases hr'
                exact hmono2 _ hnext
              · exact htargets2 p' hp' r' hr'
            · intro x hx
              rcases hfresh2 x hx with hin | hnotin
              · exact hfresh1 x hin
              · exact Or.inr hnotin
            · intro g; exact hgood2 (hgood1 g)
            · intro r hr
              rcases hprov2 r hr with hin | ⟨p', nx, hp', hnx, hreach⟩
              · rcases hprov1 r hin with hin2 | hreach2
                · exact Or.inl hin2
                · exact Or.inr ⟨p, next, List.mem_cons_self _ _, hget, hreach2⟩
              · exact Or.inr ⟨p', nx, List.mem_cons_of_mem _ hp', hnx, hreach⟩
            · intro p' hp'
              rcases List.mem_cons.mp hp' with hp' | hp'
              · subst hp'; rw [hget]; rfl
              · exact hsome2 p' hp'

end Depi

namespace Depi

theorem goodState_init (registry : List Registration) : GoodState registry ⟨[], []⟩ := by
  refine ⟨?_, ?_, ?_, ?_, ?_⟩
  · intro r hr; simp at hr
  · intro x; simp
  · simp
  · intro j r hj; simp [List.get?] at hj
  · intro r hr; simp at hr

theorem topoFold_ok_spec (registry : List Registration) (fuel : Nat) :
    ∀ roots ds ds', (∀ r, r ∈ roots → r ∈ registry) →
    topoFoldFuel registry fuel roots ds = Except.ok ds' →
    (∀ x, x ∈ ds.visited → x ∈ ds'.visited) ∧
    (∀ root, root ∈ roots → root.implementation_type ∈ ds'.visited) ∧
    (GoodState registry ds → GoodState registry ds') ∧
    (∀ r, r ∈ ds'.order → r ∈ ds.order ∨ ∃ root, root ∈ roots ∧
      Relation.ReflTransGen (EdgeC registry) root r) := by
  intro roots
  induction roots with
  | nil =>
    intro ds ds' _ h
    simp only [topoFoldFuel, Except.ok.injEq] at h
    subst h
    exact ⟨fun x hx => hx, by simp, fun g => g, fun r hr => Or.inl hr⟩
  | cons d rest ih =>
    intro ds ds' hroots h
    simp only [topoFoldFuel] at h
    cases hdfs : dfsFuel registry fuel [] ds d with
    | error e => simp only [hdfs] at h; exact absurd h (by simp)
    | ok ds1 =>
      simp only [hdfs] at h
      obtain ⟨_, hmono1, hd1, _, hgood1, hprov1⟩ :=
        (dfs_ok_spec registry fuel).1 [] ds d ds1 (hroots d (List.mem_cons_self _ _)) hdfs
      obtain ⟨hmono2, hroots2, hgood2, hprov2⟩ :=
        ih ds1 ds' (fun r hr => hroots r (List.mem_cons_of_mem _ hr)) h
      refine ⟨fun x hx => hmono2 x (hmono1 x hx), ?_, fun g => hgood2 (hgood1 g), ?_⟩
      · intro root hroot
        rcases List.mem_cons.mp hroot with hroot | hroot
        · subst hroot; exact hmono2 _ hd1
        · exact hroots2 root hroot
      · intro r hr
        rcases hprov2 r hr with hin | ⟨root, hroot, hreach⟩
        · rcases hprov1 r hin with hin2 | hreach2
          · exact Or.inl hin2
          · exact Or.inr ⟨d, List.mem_cons_self _ _, hreach2⟩
        · exact Or.inr ⟨root, List.mem_cons_of_mem _ hroot, hreach⟩

/-- In a `GoodState` order over an implementation-injective registry, every
registration reachable from an order entry appears strictly earlier. -/
theorem goodState_topo {registry : List Registration} {ds : DfsState}
    (hinj : ImplInj registry) (g : GoodState registry ds) :
    ∀ j r, ds.order.get? j = some r → ∀ r', Reaches registry r r' →
      ∃ i, i < j ∧ ds.order.get? i = some r' := by
  have hstep : ∀ j r, ds.order.get? j = some r → ∀ r', EdgeC registry r r' →
      ∃ i, i < j ∧ ds.order.get? i = some r' := by
    intro j r hj r' he
    obtain ⟨p, hp, hpd⟩ := he
    obtain ⟨i, hij, r2, hr2, hr2i⟩ := g.closed j r hj p hp r' hpd
    have hr2mem : r2 ∈ ds.order := List.get?_mem hr2
    have heq : r2 = r' := hinj r2 (g.mem r2 hr2mem) r' (dictGet_mem hpd) hr2i
    exact ⟨i, hij, heq ▸ hr2⟩
  intro j r hj r' hre
  have main : ∀ a, Relation.TransGen (EdgeC registry) a r' →
      ∀ k, ds.order.get? k = some a → ∃ i, i < k ∧ ds.order.get? i = some r' := by
    intro a hre2
    induction hre2 using Relation.TransGen.head_induction_on with
    | base hb =>
      intro k hk
      exact hstep k _ hk r' hb
    | ih hedge _ hih =>
      intro k hk
      obtain ⟨i, hik, hi⟩ := hstep k _ hk _ hedge
      obtain ⟨i2, hi2, hi2e⟩ := hih i hi
      exact ⟨i2, lt_trans hi2 hik, hi2e⟩
  exact main r hre j hj

/-- With implementation injectivity, a registry member whose implementation
type was visited is itself in the order. -/
theorem root_in_order {registry : List Registration} {ds : DfsState}
    (hinj : ImplInj registry) (g : GoodState registry ds) {root : Registration}
    (hmem : root ∈ registry) (hvis : root.implementation_type ∈ ds.visited) :
    root ∈ ds.order := by
  obtain ⟨r2, hr2, hri⟩ := (g.vis _).mp hvis
  have heq : r2 = root := hinj r2 (g.mem _ hr2) root hmem hri
  exact heq ▸ hr2

/-- Walking the DFS stack chain: every stack member reaches the top. -/
theorem chain_reaches {registry : List Registration} :
    ∀ (xs : List Registration) (x : Registration),
    List.Chain' (fun a b => EdgeC registry b a) (x :: xs) →
    ∀ r, r ∈ xs → Relation.TransGen (EdgeC registry) r x := by
  intro xs
  induction xs with
  | nil => intro x _ r hr; simp at hr
  | cons y ys ih =>
    intro x hchain r hr
    have h1 : EdgeC registry y x := (List.chain'_cons.mp hchain).1
    have h2 := (List.chain'_cons.mp hchain).2
    rcases List.mem_cons.mp hr with hr | hr
    · subst hr; exact Relation.TransGen.single h1
    · exact (ih y h2 r hr).tail h1

/-- Error classification for the DFS: every escaping error is a truthful
cyclic-dependency or unregistered-dependency report (or fuel). -/
theorem dfs_err_spec (registry : List Registration) : ∀ n : Nat,
    (∀ visiting ds d e, d ∈ registry → StackOK registry visiting d →
      dfsFuel registry n visiting ds d = Except.error e → ErrSpecP registry e) ∧
    (∀ visiting ds q ps e, q ∈ registry → (∀ p, p ∈ ps → p ∈ q.constructor_params) →
      StackOKP registry visiting q →
      dfsParamsFuel registry n visiting ds q ps = Except.error e → ErrSpecP registry e) := by
  intro n
  induction n with
  | zero =>
    constructor
    · intro visiting ds d e _ _ h
      simp only [dfsFuel, Except.error.injEq] at h
      exact Or.inl h.symm
    · intro visiting ds q ps e _ _ _ h
      simp only [dfsParamsFuel, Except.error.injEq] at h
      exact Or.inl h.symm
  | succ n ih =>
    obtain ⟨ihd, ihp⟩ := ih
    constructor
    · intro visiting ds d e hd hstack h
      simp only [dfsFuel] at h
      by_cases hv : d.implementation_type ∈ ds.visited
      · simp only [if_pos hv] at h; exact absurd h (by simp)
      · simp only [if_neg hv] at h
        by_cases hvis : d.implementation_type ∈ visiting
        · simp only [if_pos hvis, Except.error.injEq] at h
          obtain ⟨rs, hvmap, hrsmem, hchain⟩ := hstack
          rw [hvmap] at hvis
          obtain ⟨a, ha, haimpl⟩ := List.mem_map.mp hvis
          refine Or.inr (Or.inl ⟨a, d, hrsmem a ha, hd, haimpl, h.symm, ?_⟩)
          exact chain_reaches rs d hchain a ha
        · simp only [if_neg hvis] at h
          cases hps : dfsParamsFuel registry n (d.implementation_type :: visiting) ds d
              d.constructor_params with
          | error e2 =>
            simp only [hps, Except.error.injEq] at h
            subst h
            obtain ⟨rs, hvmap, hrsmem, hchain⟩ := hstack
            refine ihp (d.implementation_type :: visiting) ds d d.constructor_params e2 hd
              (fun p hp => hp) ⟨rs, ?_, ?_, hchain⟩ hps
            · rw [hvmap]; rfl
            · intro r hr
              rcases List.mem_cons.mp hr with hr | hr
              · subst hr; exact hd
              · exact hrsmem r hr
          | ok ds1 => simp only [hps] at h; exact absurd h (by simp)
    · intro visiting ds q ps e hq hsub hstack h
      cases ps with
      | nil => simp only [dfsParamsFuel] at h; exact absurd h (by simp)
      | cons p rest =>
        simp only [dfsParamsFuel] at h
        cases hget : dictGet registry p.dependency_type with
        | none =>
          simp only [hget, Except.error.injEq] at h
          refine Or.inr (Or.inr ⟨p.dependency_type, q, hq, h.symm,
            ⟨p, hsub p (List.mem_cons_self _ _), rfl⟩, hget⟩)
        | some next =>
          simp only [hget] at h
          have hstacknext : StackOK registry visiting next := by
            obtain ⟨rs0, hvmap, hmem, hchain⟩ := hstack
            refine ⟨q :: rs0, hvmap, hmem, ?_⟩
            rw [List.chain'_cons]
            exact ⟨⟨p, hsub p (List.mem_cons_self _ _), hget⟩, hchain⟩
          cases hdfs : dfsFuel registry n visiting ds next with
          | error e2 =>
            simp only [hdfs, Except.error.injEq] at h
            subst h
            exact ihd visiting ds next e2 (dictGet_mem hget) hstacknext hdfs
          | ok ds1 =>
            simp only [hdfs] at h
            exact ihp visiting ds1 q rest e hq
              (fun p' hp' => hsub p' (List.mem_cons_of_mem _ hp')) hstack h

theorem topoFold_err_spec (registry : List Registration) (fuel : Nat) :
    ∀ roots ds e, (∀ r, r ∈ roots → r ∈ registry) →
    topoFoldFuel registry fuel roots ds = Except.error e → ErrSpecP registry e := by
  intro roots
  induction roots with
  | nil => intro ds e _ h; simp [topoFoldFuel] at h
  | cons d rest ih =>
    intro ds e hroots h
    simp only [topoFoldFuel] at h
    cases hdfs : dfsFuel registry fuel [] ds d with
    | error e2 =>
      simp only [hdfs, Except.error.injEq] at h
      subst h
      refine (dfs_err_spec registry fuel).1 [] ds d e2 (hroots d (List.mem_cons_self _ _))
        ⟨[], rfl, by simp, ?_⟩ hdfs
      simp
    | ok ds1 =>
      simp only [hdfs] at h
      exact ih ds1 e (fun r hr => hroots r (List.mem_cons_of_mem _ hr)) h

end Depi

namespace Depi

theorem params_le_max {registry : List Registration} {r : Registration} (h : r ∈ registry) :
    r.constructor_params.length ≤ maxParams registry := by
  induction registry with
  | nil => simp at h
  | cons x xs ih =>
    rcases List.mem_cons.mp h with h | h
    · subst h; exact le_max_left _ _
    · exact le_trans (ih h) (le_max_right _ _)

theorem impl_mem_univ {registry : List Registration} {r : Registration} (h : r ∈ registry) :
    r.implementation_type ∈ implUniv registry :=
  List.mem_map_of_mem _ h

theorem filter_length_mono {p q : Nat → Bool} (hpq : ∀ x, p x = true → q x = true) :
    ∀ l : List Nat, (l.filter p).length ≤ (l.filter q).length := by
  intro l
  induction l with
  | nil => simp
  | cons u us ih =>
    rw [List.filter_cons, List.filter_cons]
    cases hp : p u with
    | true =>
      have hq := hpq u hp
      rw [if_pos rfl, if_pos hq]
      simp only [List.length_cons]
      omega
    | false =>
      rw [if_neg (by simp)]
      cases hq : q u with
      | true =>
        rw [if_pos rfl]
        simp only [List.length_cons]
        omega
      | false =>
        rw [if_neg (by simp)]
        exact ih

theorem freeCount_push {registry : List Registration} {x : Nat} {visiting : List Nat}
    (hx : x ∈ implUniv registry) (hnx : x ∉ visiting) :
    freeCount registry (x :: visiting) < freeCount registry visiting := by
  unfold freeCount
  have main : ∀ U : List Nat, x ∈ U →
      (U.filter (fun y => decide (y ∉ x :: visiting))).length <
        (U.filter (fun y => decide (y ∉ visiting))).length := by
    intro U hU
    induction U with
    | nil => simp at hU
    | cons u us ih =>
      have hmono : (us.filter (fun y => decide (y ∉ x :: visiting))).length ≤
          (us.filter (fun y => decide (y ∉ visiting))).length := by
        refine filter_length_mono ?_ us
        intro y hy
        simp only [decide_eq_true_eq] at hy ⊢
        exact fun hmem => hy (List.mem_cons_of_mem _ hmem)
      rw [List.filter_cons, List.filter_cons]
      by_cases hux : u = x
      · subst hux
        rw [if_neg (by simp), if_pos (by simpa using hnx)]
        simp only [List.length_cons]
        omega
      · have hU2 : x ∈ us := by
          rcases List.mem_cons.mp hU with hh | hh
          · exact absurd hh.symm hux
          · exact hh
        have ihx := ih hU2
        by_cases hu : u ∈ visiting
        · rw [if_neg (by simp [List.mem_cons, hu]), if_neg (by simp [hu])]
          exact ihx
        · rw [if_pos (by simp [List.mem_cons, hux, hu]), if_pos (by simpa using hu)]
          simp only [List.length_cons]
          omega
  exact main (implUniv registry) hx

theorem freeCount_nil (registry : List Registration) :
    freeCount registry [] = (implUniv registry).length := by
  unfold freeCount
  have : ∀ U : List Nat, (U.filter (fun y => decide (y ∉ ([] : List Nat)))).length = U.length := by
    intro U
    induction U with
    | nil => rfl
    | cons u us ih => simp only [List.filter_cons, List.not_mem_nil, decide_not, List.length_cons]; simpa using ih
  exact this _

/-- `sortFuel` is enough: the DFS never runs out of fuel. -/
theorem dfs_fuel_adequate (registry : List Registration) : ∀ n : Nat,
    (∀ visiting ds d, d ∈ registry →
      (maxParams registry + 1) * freeCount registry visiting + 1 ≤ n →
      dfsFuel registry n visiting ds d ≠ Except.error DIError.outOfFuel) ∧
    (∀ visiting ds q ps, q ∈ registry → ps.length ≤ maxParams registry →
      ps.length + (maxParams registry + 1) * freeCount registry visiting + 1 ≤ n →
      dfsParamsFuel registry n visiting ds q ps ≠ Except.error DIError.outOfFuel) := by
  intro n
  induction n with
  | zero =>
    constructor
    · intro visiting ds d _ hb; omega
    · intro visiting ds q ps _ _ hb; omega
  | succ n ih =>
    obtain ⟨ihd, ihp⟩ := ih
    constructor
    · intro visiting ds d hd hb
      simp only [dfsFuel]
      by_cases hv : d.implementation_type ∈ ds.visited
      · simp only [if_pos hv]; intro hcontra; exact absurd hcontra (by simp)
      · simp only [if_neg hv]
        by_cases hvis : d.implementation_type ∈ visiting
        · simp only [if_pos hvis]; intro hcontra; simp at hcontra
        · simp only [if_neg hvis]
          have hfc : freeCount registry (d.implementation_type :: visiting) <
              freeCount registry visiting :=
            freeCount_push (impl_mem_univ hd) hvis
          have hlen : d.constructor_params.length ≤ maxParams registry := params_le_max hd
          have hbound : d.constructor_params.length +
              (maxParams registry + 1) *
                freeCount registry (d.implementation_type :: visiting) + 1 ≤ n := by
            have hmul : (maxParams registry + 1) *
                (freeCount registry (d.implementation_type :: visiting) + 1) ≤
                (maxParams registry + 1) * freeCount registry visiting :=
              Nat.mul_le_mul_left _ (by omega)
            rw [Nat.mul_succ] at hmul
            omega
          have hparams := ihp (d.implementation_type :: visiting) ds d
            d.constructor_params hd hlen hbound
          cases hps : dfsParamsFuel registry n (d.implementation_type :: visiting) ds d
              d.constructor_params with
          | error e2 =>
            simp only [hps]
            intro hcontra
            simp only [Except.error.injEq] at hcontra
            rw [hps] at hparams
            exact hparams (by rw [hcontra])
          | ok ds1 => simp only [hps]; intro hcontra; exact absurd hcontra (by simp)
    · intro visiting ds q ps hq hlen hb
      cases ps with
      | nil => simp [dfsParamsFuel]
      | cons p rest =>
        simp only [dfsParamsFuel]
        cases hget : dictGet registry p.dependency_type with
        | none => intro hcontra; simp at hcontra
        | some next =>
          have hdfs := ihd visiting ds next (dictGet_mem hget) (by
            simp only [List.length_cons] at hb
            omega)
          cases hres : dfsFuel registry n visiting ds next with
          | error e2 =>
            intro hcontra
            simp only [hres, Except.error.injEq] at hcontra
            rw [hres] at hdfs
            exact hdfs (by rw [hcontra])
          | ok ds1 =>
            simp only [hres]
            refine ihp visiting ds1 q rest hq ?_ ?_
            · simp only [List.length_cons] at hlen; omega
            · simp only [List.length_cons] at hb; omega

theorem topoFold_fuel_adequate (registry : List Registration) :
    ∀ roots ds, (∀ r, r ∈ roots → r ∈ registry) →
    topoFoldFuel registry (sortFuel registry) roots ds ≠ Except.error DIError.outOfFuel := by
  intro roots
  induction roots with
  | nil => intro ds _; simp [topoFoldFuel]
  | cons d rest ih =>
    intro ds hroots
    simp only [topoFoldFuel]
    have hdfs := (dfs_fuel_adequate registry (sortFuel registry)).1 [] ds d
      (hroots d (List.mem_cons_self _ _))
      (by rw [freeCount_nil]; unfold sortFuel; omega)
    cases hres : dfsFuel registry (sortFuel registry) [] ds d with
    | error e2 =>
      intro hcontra
      simp only [hres, Except.error.injEq] at hcontra
      rw [hres] at hdfs
      exact hdfs (by rw [hcontra])
    | ok ds1 =>
      simp only [hres]
      exact ih ds1 (fun r hr => hroots r (List.mem_cons_of_mem _ hr))

end Depi

/-! ## Claims C4, C5, C6: graph validation -/

namespace Depi

/-- C5 (amended): when the topological sort succeeds over a registry whose
distinct identities have distinct implementation types, the returned list
is a valid construction order — every registration reachable through an
output entry's constructorParams appears strictly earlier in the list.
(The distinct-implementation proviso is forced by the counterexample: the
DFS identifies registrations by implementation type, so a reachable
registration can be missing from the output entirely.) -/
theorem c5_topological_order : ∀ (registry : List Registration) fuel roots ds,
    ImplInj registry → (∀ r, r ∈ roots → r ∈ registry) →
    topologicalSortFuel registry fuel roots = Except.ok ds →
    ∀ j r, ds.order.get? j = some r → ∀ r', Reaches registry r r' →
      ∃ i, i < j ∧ ds.order.get? i = some r' := by
  intro registry fuel roots ds hinj hroots hsort
  have hfold := topoFold_ok_spec registry fuel roots ⟨[], []⟩ ds hroots hsort
  exact goodState_topo hinj (hfold.2.2.1 (goodState_init registry))

/-- C5 witness: sorting a singleton `A` depending on singleton `B` puts `B`
strictly before `A`. -/
theorem c5_witness :
    topologicalSortFuel exWregs 9 (exWregs.filter (fun d => d.lifetime = Lifetime.singleton)) =
      Except.ok ⟨[100, 101], [exWregB, exWregA]⟩ ∧
    ∃ i, i < 1 ∧ ([exWregB, exWregA] : List Registration).get? i = some exWregB :=
  ⟨rfl,
    c5_topological_order exWregs 9
      (exWregs.filter (fun d => d.lifetime = Lifetime.singleton))
      ⟨[100, 101], [exWregB, exWregA]⟩ (by decide)
      (fun r hr => (List.mem_filter.mp hr).1) rfl 1 exWregA rfl exWregB
      (Relation.TransGen.single ⟨⟨0, 1⟩, by decide, rfl⟩)⟩

/-- C5 counterexample: identities `A` and `B` share one implementation type;
`D` (in the output, at index 2) depends on `B`, yet `B` appears nowhere in
the output — the DFS skipped it because its implementation type was already
visited via `A`.  "Every descriptor reachable through its constructorParams
appears earlier in the list" fails. -/
theorem c5_counterexample :
    topologicalSortFuel exC5regs 20
        (exC5regs.filter (fun d => d.lifetime = Lifetime.singleton)) =
      Except.ok ⟨[103, 102, 100], [exC5regA, exC5regC, exC5regD]⟩ ∧
    ([exC5regA, exC5regC, exC5regD] : List Registration).get? 2 = some exC5regD ∧
    EdgeC exC5regs exC5regD exC5regB ∧
    ([exC5regA, exC5regC, exC5regD] : List Registration).get? 0 ≠ some exC5regB ∧
    ([exC5regA, exC5regC, exC5regD] : List Registration).get? 1 ≠ some exC5regB :=
  ⟨rfl, rfl, ⟨⟨0, 1⟩, by decide, rfl⟩, by decide, by decide⟩

/-- C4 (amended): over a registry whose distinct identities have distinct
implementation types and whose constructor-parameter identities are all
registered, any cycle among Singleton descriptors makes `build()` fail with
`CyclicDependency`, naming an implementation type that lies on a genuine
cycle; no such registry yields a built Provider.  (Both provisos are forced
by the counterexample: shared implementation types make the DFS skip the
cycle entirely, and an unregistered identity reached first is reported
instead of the cycle.) -/
theorem c4_cycle_build_fails : ∀ (registry : List Registration) cache al lg,
    ImplInj registry → RegistryClosed registry →
    (∃ r, r ∈ registry ∧ Relation.TransGen (EdgeS registry) r r) →
    ∃ x b, buildFuel (sortFuel registry) ⟨registry, cache, al, lg⟩ =
        Except.error (DIError.cyclicDependency x) ∧
      b ∈ registry ∧ b.implementation_type = x ∧
      Relation.TransGen (EdgeC registry) b b := by
  intro registry cache al lg hinj hclosed hcycle
  obtain ⟨r, hr, hcyc⟩ := hcycle
  have hrS : r.lifetime = Lifetime.singleton := by
    cases hcyc with
    | single h => exact h.1
    | tail _ h => exact h.2.1
  have hEC : Relation.TransGen (EdgeC registry) r r :=
    Relation.TransGen.mono (fun a b h => h.2.2) hcyc
  have hrootsub : ∀ q, q ∈ registry.filter (fun d => d.lifetime = Lifetime.singleton) →
      q ∈ registry := fun q hq => (List.mem_filter.mp hq).1
  cases hsort : topologicalSortFuel registry (sortFuel registry)
      (registry.filter (fun d => d.lifetime = Lifetime.singleton)) with
  | ok ds =>
    exfalso
    have hfold := topoFold_ok_spec registry (sortFuel registry)
      (registry.filter (fun d => d.lifetime = Lifetime.singleton)) ⟨[], []⟩ ds hrootsub hsort
    have hgood := hfold.2.2.1 (goodState_init registry)
    have hrroot : r ∈ registry.filter (fun d => d.lifetime = Lifetime.singleton) :=
      List.mem_filter.mpr ⟨hr, by simp [hrS]⟩
    have hrvis : r.implementation_type ∈ ds.visited := hfold.2.1 r hrroot
    have hrorder : r ∈ ds.order := root_in_order hinj hgood hr hrvis
    obtain ⟨j, hj⟩ := List.get?_of_mem hrorder
    obtain ⟨i, hij, hi⟩ := goodState_topo hinj hgood j r hj r hEC
    have hnd : ds.order.Nodup := hgood.nodup.of_map
    obtain ⟨hlt, _⟩ := List.get?_eq_some.mp hi
    have := List.get?_inj hlt hnd (hi.trans hj.symm)
    omega
  | error e =>
    have hspec := topoFold_err_spec registry (sortFuel registry)
      (registry.filter (fun d => d.lifetime = Lifetime.singleton)) ⟨[], []⟩ e hrootsub hsort
    rcases hspec with hfuel | ⟨a, b, ha, hb, himpl, he, htrans⟩ |
      ⟨m, q, hq, he, ⟨p, hp, hpd⟩, hmiss⟩
    · exfalso
      have hsort2 : topoFoldFuel registry (sortFuel registry)
          (registry.filter (fun d => d.lifetime = Lifetime.singleton)) ⟨[], []⟩ =
          Except.error e := hsort
      exact topoFold_fuel_adequate registry
        (registry.filter (fun d => d.lifetime = Lifetime.singleton)) ⟨[], []⟩ hrootsub
        (by rw [hsort2, hfuel])
    · have hab : a = b := hinj a ha b hb himpl
      subst hab
      refine ⟨a.implementation_type, a, ?_, ha, rfl, htrans⟩
      simp only [buildFuel, hsort, he]
    · exfalso
      have hsome := hclosed q hq p hp
      rw [hpd, hmiss] at hsome
      simp at hsome

/-- C4 witness: a self-referencing singleton with no other registration;
`build()` fails with `CyclicDependency` naming an identity on the cycle. -/
theorem c4_witness :
    ∃ x b, buildFuel (sortFuel [exC4regQ]) ⟨[exC4regQ], [], 0, []⟩ =
        Except.error (DIError.cyclicDependency x) ∧
      b ∈ [exC4regQ] ∧ b.implementation_type = x ∧
      Relation.TransGen (EdgeC [exC4regQ]) b b :=
  c4_cycle_build_fails [exC4regQ] [] 0 [] (by decide) (by decide)
    ⟨exC4regQ, by decide, Relation.TransGen.single ⟨rfl, rfl, ⟨⟨0, 1⟩, by decide, rfl⟩⟩⟩

/-- C4 counterexample: (i) identities `A` and `B` share an implementation
type and `B` is a self-loop among Singletons, yet `build()` succeeds and
yields a built Provider; (ii) with a cycle present but an unregistered
identity reached first, `build()` raises `UnregisteredDependency` instead
of `CyclicDependency` (the only on-cycle implementation name is `101`). -/
theorem c4_counterexample :
    buildFuel 20 exC4st =
      Except.ok (⟨[⟨0, 100, Lifetime.singleton, PyVal.obj 0, some FactorySpec.mkFresh, []⟩,
        exC4regB], [(0, PyVal.obj 0)], 1, [(Mech.factoryCall, 0)]⟩ : ProviderState) ∧
    Relation.TransGen (EdgeS [exC4regA, exC4regB]) exC4regB exC4regB ∧
    buildFuel 20 exC4st2 =
      Except.error (DIError.unregisteredDependency 9 (some 100)) ∧
    Relation.TransGen (EdgeS [exC4regP, exC4regQ]) exC4regQ exC4regQ ∧
    buildFuel 20 exC4st2 ≠ Except.error (DIError.cyclicDependency 101) := by
  refine ⟨rfl, Relation.TransGen.single ⟨rfl, rfl, ⟨⟨0, 1⟩, by decide, rfl⟩⟩, rfl,
    Relation.TransGen.single ⟨rfl, rfl, ⟨⟨0, 1⟩, by decide, rfl⟩⟩, ?_⟩
  intro hcontra
  rw [show buildFuel 20 exC4st2 =
    Except.error (DIError.unregisteredDependency 9 (some 100)) from rfl] at hcontra
  simp at hcontra

/-- C6 (amended): reaching an unregistered identity always fails with
`UnregisteredDependency` naming the missing identity; but only graph
validation (the topological sort) names the requester — the resolve paths
(sync, async, and scope) raise the single-argument form with no requester,
even when the identity was reached as a constructor parameter.  Conversely,
a successful sort certifies that every constructor parameter of every
emitted registration is registered. -/
theorem c6_unregistered_reporting :
    (∀ n (st : ProviderState) t, dictGet st.registry t = Option.none →
      resolveFuel (n + 1) st t =
        Except.error (DIError.unregisteredDependency t Option.none) ∧
      resolveAsyncFuel (n + 1) st t =
        Except.error (DIError.unregisteredDependency t Option.none) ∧
      ∀ sc, scopeResolveFuel (n + 1) st sc t =
        Except.error (DIError.unregisteredDependency t Option.none)) ∧
    (∀ (registry : List Registration) fuel roots m req,
      (∀ r, r ∈ roots → r ∈ registry) →
      topologicalSortFuel registry fuel roots =
        Except.error (DIError.unregisteredDependency m req) →
      ∃ q, q ∈ registry ∧ req = some q.implementation_type ∧
        (∃ p, p ∈ q.constructor_params ∧ p.dependency_type = m) ∧
        dictGet registry m = Option.none) ∧
    (∀ (registry : List Registration) fuel roots ds,
      (∀ r, r ∈ roots → r ∈ registry) →
      topologicalSortFuel registry fuel roots = Except.ok ds →
      ∀ r, r ∈ ds.order → ∀ p, p ∈ r.constructor_params →
        (dictGet registry p.dependency_type).isSome) := by
  refine ⟨?_, ?_, ?_⟩
  · intro n st t h
    refine ⟨?_, ?_, ?_⟩
    · simp only [resolveFuel, h]
    · simp only [resolveAsyncFuel, h]
    · intro sc; simp only [scopeResolveFuel, h]
  · intro registry fuel roots m req hroots hsort
    have hspec := topoFold_err_spec registry fuel roots ⟨[], []⟩ _ hroots hsort
    rcases hspec with hfuel | ⟨a, b, _, _, _, he, _⟩ | ⟨m2, q, hq, he, hpar, hmiss⟩
    · exact absurd hfuel (by simp)
    · exact absurd he (by simp)
    · simp only [DIError.unregisteredDependency.injEq] at he
      obtain ⟨hm, hreq⟩ := he
      subst hm
      exact ⟨q, hq, hreq, hpar, hmiss⟩
  · intro registry fuel roots ds hroots hsort r hr p hp
    have hfold := topoFold_ok_spec registry fuel roots ⟨[], []⟩ ds hroots hsort
    exact (hfold.2.2.1 (goodState_init registry)).paramsReg r hr p hp

/-- C6 witness: a lookup of an unregistered identity fails with the
no-requester error on all three resolve paths; a sort that hits a missing
constructor parameter names a genuine requester; a successful sort has all
parameters of its output registered. -/
theorem c6_witness :
    (resolveFuel 1 (⟨[], [], 0, []⟩ : ProviderState) 3 =
        Except.error (DIError.unregisteredDependency 3 Option.none) ∧
      resolveAsyncFuel 1 (⟨[], [], 0, []⟩ : ProviderState) 3 =
        Except.error (DIError.unregisteredDependency 3 Option.none) ∧
      ∀ sc, scopeResolveFuel 1 (⟨[], [], 0, []⟩ : ProviderState) sc 3 =
        Except.error (DIError.unregisteredDependency 3 Option.none)) ∧
    (∃ q, q ∈ [exC4regP, exC4regQ] ∧ (some 100 : Option Nat) = some q.implementation_type ∧
      (∃ p, p ∈ q.constructor_params ∧ p.dependency_type = 9) ∧
      dictGet [exC4regP, exC4regQ] 9 = Option.none) ∧
    (∀ r, r ∈ ([exWregB, exWregA] : List Registration) → ∀ p, p ∈ r.constructor_params →
      (dictGet exWregs p.dependency_type).isSome) :=
  ⟨c6_unregistered_reporting.1 0 ⟨[], [], 0, []⟩ 3 rfl,
    c6_unregistered_reporting.2.1 [exC4regP, exC4regQ] 20
      ([exC4regP, exC4regQ].filter (fun d => d.lifetime = Lifetime.singleton)) 9 (some 100)
      (fun r hr => (List.mem_filter.mp hr).1) rfl,
    c6_unregistered_reporting.2.2 exWregs 9
      (exWregs.filter (fun d => d.lifetime = Lifetime.singleton))
      ⟨[100, 101], [exWregB, exWregA]⟩ (fun r hr => (List.mem_filter.mp hr).1) rfl⟩

/-- C6 counterexample: resolving a transient whose constructor requires the
unregistered identity `5` fails with an error naming only the missing
identity — the requester (implementation `100` of the requesting
descriptor) is NOT named, although the identity was reached as a
constructor parameter. -/
theorem c6_counterexample :
    resolveFuel 4 exC6st 0 =
      Except.error (DIError.unregisteredDependency 5 Option.none) ∧
    (Option.none : Option Nat) ≠ some 100 :=
  ⟨rfl, by decide⟩

end Depi

/-! ## Claim C7: what build may touch -/

namespace Depi

/-- Resolution of identity `t` leaves the cache entry and construction
count of every identity outside `t`'s key cone unchanged (where the key
cone now includes both constructor-parameter and factory-resolution
edges). -/
theorem resolve_footprint : ∀ n : Nat,
    (∀ st t v st' u, resolveFuel n st t = Except.ok (v, st') →
      ¬ KeyCone st.registry t u →
      cacheGet st'.singleton_instances u = cacheGet st.singleton_instances u ∧
      countLog st'.log u = countLog st.log u) ∧
    (∀ st reg v st' u, activateFuel n st reg = Except.ok (v, st') →
      u ≠ reg.dependency_type →
      (∀ p, p ∈ reg.constructor_params → ¬ KeyCone st.registry p.dependency_type u) →
      cacheGet st'.singleton_instances u = cacheGet st.singleton_instances u ∧
      countLog st'.log u = countLog st.log u) ∧
    (∀ st ps st' u, resolveParamsFuel n st ps = Except.ok st' →
      (∀ p, p ∈ ps → ¬ KeyCone st.registry p.dependency_type u) →
      cacheGet st'.singleton_instances u = cacheGet st.singleton_instances u ∧
      countLog st'.log u = countLog st.log u) ∧
    (∀ st t f v st' u, runFactoryFuel n st t f = Except.ok (v, st') →
      u ≠ t →
      (∀ w, f = FactorySpec.resolveId w → ¬ KeyCone st.registry w u) →
      cacheGet st'.singleton_instances u = cacheGet st.singleton_instances u ∧
      countLog st'.log u = countLog st.log u) := by
  intro n
  induction n with
  | zero =>
    refine ⟨?_, ?_, ?_, ?_⟩
    · intro st t v st' u h; simp [resolveFuel] at h
    · intro st reg v st' u h; simp [activateFuel] at h
    · intro st ps st' u h; simp [resolveParamsFuel] at h
    · intro st t f v st' u h hut hw
      cases f with
      | mkFresh =>
        obtain ⟨-, hcch, hlg⟩ := runFactoryFuel_pure_state (by simp) h
        exact ⟨by rw [hcch],
          by rw [hlg, countLog_cons, if_neg (Ne.symm hut), Nat.zero_add]⟩
      | retNone =>
        obtain ⟨-, hcch, hlg⟩ := runFactoryFuel_pure_state (by simp) h
        exact ⟨by rw [hcch],
          by rw [hlg, countLog_cons, if_neg (Ne.symm hut), Nat.zero_add]⟩
      | retConst k =>
        obtain ⟨-, hcch, hlg⟩ := runFactoryFuel_pure_state (by simp) h
        exact ⟨by rw [hcch],
          by rw [hlg, countLog_cons, if_neg (Ne.symm hut), Nat.zero_add]⟩
      | resolveId w => simp [runFactoryFuel] at h
  | succ n ih =>
    obtain ⟨ihr, iha, ihp, ihf⟩ := ih
    refine ⟨?_, ?_, ?_, ?_⟩
    · intro st t v st' u h hcone
      have hut : u ≠ t := by
        intro he; subst he; exact hcone Relation.ReflTransGen.refl
      simp only [resolveFuel] at h
      cases hget : dictGet st.registry t with
      | none => simp only [hget] at h; exact absurd h (by simp)
      | some reg =>
        have hkey : reg.dependency_type = t := dictGet_key hget
        have hpcone : ∀ p, p ∈ reg.constructor_params →
            ¬ KeyCone st.registry p.dependency_type u := by
          intro p hp hc
          exact hcone (Relation.ReflTransGen.head ⟨reg, hget, Or.inl ⟨p, hp, rfl⟩⟩ hc)
        simp only [hget] at h
        cases hlife : reg.lifetime <;> simp only [hlife] at h
        · by_cases hc : cacheGet st.singleton_instances t = PyVal.vnone
          · simp only [if_pos hc] at h
            cases hf : reg.factory with
            | some f =>
              have hfcone : ∀ w, f = FactorySpec.resolveId w →
                  ¬ KeyCone st.registry w u := by
                intro w hfw hcw
                exact hcone (Relation.ReflTransGen.head
                  ⟨reg, hget, Or.inr (by rw [hf, hfw])⟩ hcw)
              simp only [hf] at h
              cases hrf : runFactoryFuel n st t f with
              | error e => simp only [hrf] at h; exact absurd h (by simp)
              | ok p =>
                simp only [hrf, Except.ok.injEq, Prod.mk.injEq] at h
                obtain ⟨hv, hst⟩ := h
                subst hst
                have hres := ihf st t f p.1 p.2 u (by rw [hrf]) hut hfcone
                constructor
                · simp only [cacheGet_cacheSet_ne _ _ hut]
                  exact hres.1
                · exact hres.2
            | none =>
              simp only [hf] at h
              by_cases hi : reg.inst = PyVal.vnone
              · simp only [if_pos hi] at h
                cases hact : activateFuel n st reg with
                | error e => simp only [hact] at h; exact absurd h (by simp)
                | ok p =>
                  simp only [hact, Except.ok.injEq, Prod.mk.injEq] at h
                  obtain ⟨hv, hst⟩ := h
                  subst hst
                  have hres := iha st reg p.1 p.2 u (by rw [hact]) (by rw [hkey]; exact hut)
                    hpcone
                  constructor
                  · simp only [cacheGet_cacheSet_ne _ _ hut]
                    exact hres.1
                  · exact hres.2
              · simp only [if_neg hi, Except.ok.injEq, Prod.mk.injEq] at h
                obtain ⟨hv, hst⟩ := h
                subst hst
                exact ⟨by simp only [cacheGet_cacheSet_ne _ _ hut], rfl⟩
          · simp only [if_neg hc, Except.ok.injEq, Prod.mk.injEq] at h
            obtain ⟨hv, hst⟩ := h
            subst hst
            exact ⟨rfl, rfl⟩
        · cases hf : reg.factory with
          | some f =>
            have hfcone : ∀ w, f = FactorySpec.resolveId w →
                ¬ KeyCone st.registry w u := by
              intro w hfw hcw
              exact hcone (Relation.ReflTransGen.head
                ⟨reg, hget, Or.inr (by rw [hf, hfw])⟩ hcw)
            simp only [hf] at h
            exact ihf st t f v st' u h hut hfcone
          | none =>
            simp only [hf] at h
            exact iha st reg v st' u h (by rw [hkey]; exact hut) hpcone
        · exact absurd h (by simp)
    · intro st reg v st' u h hu hpcone
      simp only [activateFuel] at h
      cases hps : resolveParamsFuel n st reg.constructor_params with
      | error e => simp only [hps] at h; exact absurd h (by simp)
      | ok st1 =>
        simp only [hps, Except.ok.injEq] at h
        have hst : st' = (mkInstance st1 reg.dependency_type).2 := by rw [h]
        subst hst
        have hres := ihp st reg.constructor_params st1 u hps hpcone
        constructor
        · simp only [mkInstance_cache]; exact hres.1
        · simp only [mkInstance_log, countLog_cons, if_neg (Ne.symm hu), Nat.zero_add]
          exact hres.2
    · intro st ps st' u h hpcone
      cases ps with
      | nil =>
        simp only [resolveParamsFuel, Except.ok.injEq] at h
        subst h
        exact ⟨rfl, rfl⟩
      | cons p rest =>
        simp only [resolveParamsFuel] at h
        cases hres : resolveFuel n st p.dependency_type with
        | error e => simp only [hres] at h; exact absurd h (by simp)
        | ok q =>
          simp only [hres] at h
          have hres1 : resolveFuel n st p.dependency_type = Except.ok (q.1, q.2) := hres
          have h1 := ihr st p.dependency_type q.1 q.2 u hres1
            (hpcone p (List.mem_cons_self _ _))
          have hreg1 : q.2.registry = st.registry := resolveFuel_registry hres1
          have h2 := ihp q.2 rest st' u h (by
            rw [hreg1]
            exact fun p' hp' => hpcone p' (List.mem_cons_of_mem _ hp'))
          exact ⟨h2.1.trans h1.1, h2.2.trans h1.2⟩
    · intro st t f v st' u h hut hw
      cases f with
      | mkFresh =>
        obtain ⟨-, hcch, hlg⟩ := runFactoryFuel_pure_state (by simp) h
        exact ⟨by rw [hcch],
          by rw [hlg, countLog_cons, if_neg (Ne.symm hut), Nat.zero_add]⟩
      | retNone =>
        obtain ⟨-, hcch, hlg⟩ := runFactoryFuel_pure_state (by simp) h
        exact ⟨by rw [hcch],
          by rw [hlg, countLog_cons, if_neg (Ne.symm hut), Nat.zero_add]⟩
      | retConst k =>
        obtain ⟨-, hcch, hlg⟩ := runFactoryFuel_pure_state (by simp) h
        exact ⟨by rw [hcch],
          by rw [hlg, countLog_cons, if_neg (Ne.symm hut), Nat.zero_add]⟩
      | resolveId w =>
        rw [runFactoryFuel_resolveId] at h
        have hres := ihr { st with log := (Mech.factoryCall, t) :: st.log } w v st' u h
          (by simpa using hw w rfl)
        have hlog2 : countLog ((Mech.factoryCall, t) :: st.log) u = countLog st.log u := by
          rw [countLog_cons, if_neg (Ne.symm hut), Nat.zero_add]
        exact ⟨hres.1, hres.2.trans hlog2⟩

end Depi

namespace Depi

/-- Resolution never constructs a pre-instanced, factory-free Singleton:
its instance slot short-circuits every construction path. -/
theorem resolve_noconstruct : ∀ n : Nat,
    (∀ st t v st' u ru, resolveFuel n st t = Except.ok (v, st') →
      dictGet st.registry u = some ru → ru.lifetime = Lifetime.singleton →
      ru.factory = Option.none → ru.inst ≠ PyVal.vnone →
      countLog st'.log u = countLog st.log u) ∧
    (∀ st reg v st' u ru, activateFuel n st reg = Except.ok (v, st') →
      dictGet st.registry u = some ru → ru.lifetime = Lifetime.singleton →
      ru.factory = Option.none → ru.inst ≠ PyVal.vnone →
      u ≠ reg.dependency_type →
      countLog st'.log u = countLog st.log u) ∧
    (∀ st ps st' u ru, resolveParamsFuel n st ps = Except.ok st' →
      dictGet st.registry u = some ru → ru.lifetime = Lifetime.singleton →
      ru.factory = Option.none → ru.inst ≠ PyVal.vnone →
      countLog st'.log u = countLog st.log u) ∧
    (∀ st t f v st' u ru, runFactoryFuel n st t f = Except.ok (v, st') →
      u ≠ t →
      dictGet st.registry u = some ru → ru.lifetime = Lifetime.singleton →
      ru.factory = Option.none → ru.inst ≠ PyVal.vnone →
      countLog st'.log u = countLog st.log u) := by
  intro n
  induction n with
  | zero =>
    refine ⟨?_, ?_, ?_, ?_⟩
    · intro st t v st' u ru h; simp [resolveFuel] at h
    · intro st reg v st' u ru h; simp [activateFuel] at h
    · intro st ps st' u ru h; simp [resolveParamsFuel] at h
    · intro st t f v st' u ru h hut hu hus huf hui
      cases f with
      | mkFresh =>
        obtain ⟨-, -, hlg⟩ := runFactoryFuel_pure_state (by simp) h
        rw [hlg, countLog_cons, if_neg (Ne.symm hut), Nat.zero_add]
      | retNone =>
        obtain ⟨-, -, hlg⟩ := runFactoryFuel_pure_state (by simp) h
        rw [hlg, countLog_cons, if_neg (Ne.symm hut), Nat.zero_add]
      | retConst k =>
        obtain ⟨-, -, hlg⟩ := runFactoryFuel_pure_state (by simp) h
        rw [hlg, countLog_cons, if_neg (Ne.symm hut), Nat.zero_add]
      | resolveId w => simp [runFactoryFuel] at h
  | succ n ih =>
    obtain ⟨ihr, iha, ihp, ihf⟩ := ih
    refine ⟨?_, ?_, ?_, ?_⟩
    · intro st t v st' u ru h hu hus huf hui
      simp only [resolveFuel] at h
      cases hget : dictGet st.registry t with
      | none => simp only [hget] at h; exact absurd h (by simp)
      | some reg =>
        simp only [hget] at h
        by_cases htu : t = u
        · subst htu
          have hreg : reg = ru := by rw [hget] at hu; exact Option.some.inj hu
          subst hreg
          simp only [hus] at h
          by_cases hc : cacheGet st.singleton_instances t = PyVal.vnone
          · simp only [if_pos hc, huf, if_neg hui, Except.ok.injEq, Prod.mk.injEq] at h
            obtain ⟨hv, hst⟩ := h
            subst hst
            rfl
          · simp only [if_neg hc, Except.ok.injEq, Prod.mk.injEq] at h
            obtain ⟨hv, hst⟩ := h
            subst hst
            rfl
        · have hkey : reg.dependency_type = t := dictGet_key hget
          have hne : u ≠ t := fun he => htu he.symm
          cases hlife : reg.lifetime <;> simp only [hlife] at h
          · by_cases hc : cacheGet st.singleton_instances t = PyVal.vnone
            · simp only [if_pos hc] at h
              cases hf : reg.factory with
              | some f =>
                simp only [hf] at h
                cases hrf : runFactoryFuel n st t f with
                | error e => simp only [hrf] at h; exact absurd h (by simp)
                | ok p =>
                  simp only [hrf, Except.ok.injEq, Prod.mk.injEq] at h
                  obtain ⟨hv, hst⟩ := h
                  subst hst
                  exact ihf st t f p.1 p.2 u ru (by rw [hrf]) hne hu hus huf hui
              | none =>
                simp only [hf] at h
                by_cases hi : reg.inst = PyVal.vnone
                · simp only [if_pos hi] at h
                  cases hact : activateFuel n st reg with
                  | error e => simp only [hact] at h; exact absurd h (by simp)
                  | ok p =>
                    simp only [hact, Except.ok.injEq, Prod.mk.injEq] at h
                    obtain ⟨hv, hst⟩ := h
                    subst hst
                    exact iha st reg p.1 p.2 u ru (by rw [hact]) hu hus huf hui
                      (by rw [hkey]; exact hne)
                · simp only [if_neg hi, Except.ok.injEq, Prod.mk.injEq] at h
                  obtain ⟨hv, hst⟩ := h
                  subst hst
                  rfl
            · simp only [if_neg hc, Except.ok.injEq, Prod.mk.injEq] at h
              obtain ⟨hv, hst⟩ := h
              subst hst
              rfl
          · cases hf : reg.factory with
            | some f =>
              simp only [hf] at h
              exact ihf st t f v st' u ru h hne hu hus huf hui
            | none =>
              simp only [hf] at h
              exact iha st reg v st' u ru h hu hus huf hui (by rw [hkey]; exact hne)
          · exact absurd h (by simp)
    · intro st reg v st' u ru h hu hus huf hui hud
      simp only [activateFuel] at h
      cases hps : resolveParamsFuel n st reg.constructor_params with
      | error e => simp only [hps] at h; exact absurd h (by simp)
      | ok st1 =>
        simp only [hps, Except.ok.injEq] at h
        have hst : st' = (mkInstance st1 reg.dependency_type).2 := by rw [h]
        subst hst
        simp only [mkInstance_log, countLog_cons, if_neg (Ne.symm hud), Nat.zero_add]
        exact ihp st reg.constructor_params st1 u ru hps hu hus huf hui
    · intro st ps st' u ru h hu hus huf hui
      cases ps with
      | nil =>
        simp only [resolveParamsFuel, Except.ok.injEq] at h
        subst h
        rfl
      | cons p rest =>
        simp only [resolveParamsFuel] at h
        cases hres : resolveFuel n st p.dependency_type with
        | error e => simp only [hres] at h; exact absurd h (by simp)
        | ok q =>
          simp only [hres] at h
          have hres1 : resolveFuel n st p.dependency_type = Except.ok (q.1, q.2) := hres
          have h1 := ihr st p.dependency_type q.1 q.2 u ru hres1 hu hus huf hui
          have hreg1 : q.2.registry = st.registry := resolveFuel_registry hres1
          have h2 := ihp q.2 rest st' u ru h (by rw [hreg1]; exact hu) hus huf hui
          exact h2.trans h1
    · intro st t f v st' u ru h hut hu hus huf hui
      cases f with
      | mkFresh =>
        obtain ⟨-, -, hlg⟩ := runFactoryFuel_pure_state (by simp) h
        rw [hlg, countLog_cons, if_neg (Ne.symm hut), Nat.zero_add]
      | retNone =>
        obtain ⟨-, -, hlg⟩ := runFactoryFuel_pure_state (by simp) h
        rw [hlg, countLog_cons, if_neg (Ne.symm hut), Nat.zero_add]
      | retConst k =>
        obtain ⟨-, -, hlg⟩ := runFactoryFuel_pure_state (by simp) h
        rw [hlg, countLog_cons, if_neg (Ne.symm hut), Nat.zero_add]
      | resolveId w =>
        rw [runFactoryFuel_resolveId] at h
        have hres := ihr { st with log := (Mech.factoryCall, t) :: st.log } w v st' u ru
          h hu hus huf hui
        have hlog2 : countLog ((Mech.factoryCall, t) :: st.log) u = countLog st.log u := by
          rw [countLog_cons, if_neg (Ne.symm hut), Nat.zero_add]
        exact hres.trans hlog2

theorem setInst_get_self : ∀ (m : List Registration) (t : Nat) (v : PyVal),
    dictGet (setInst m t v) t = (dictGet m t).map (fun r => { r with inst := v }) := by
  intro m t v
  induction m with
  | nil => simp [setInst, dictGet]
  | cons x xs ih =>
    by_cases hx : x.dependency_type = t
    · simp [setInst, hx, dictGet]
    · simp [setInst, hx, dictGet, ih]

theorem keyEdge_setInst (m : List Registration) (t0 : Nat) (v : PyVal) (a b : Nat) :
    KeyEdge (setInst m t0 v) a b ↔ KeyEdge m a b := by
  constructor
  · rintro ⟨r, hr, hd⟩
    by_cases hat : a = t0
    · subst hat
      rw [setInst_get_self] at hr
      obtain ⟨r0, hr0, hfr⟩ := Option.map_eq_some'.mp hr
      refine ⟨r0, hr0, ?_⟩
      rw [← hfr] at hd
      exact hd
    · rw [setInst_get_ne m v hat] at hr
      exact ⟨r, hr, hd⟩
  · rintro ⟨r, hr, hd⟩
    by_cases hat : a = t0
    · subst hat
      refine ⟨{ r with inst := v }, ?_, hd⟩
      rw [setInst_get_self, hr]
      rfl
    · rw [← setInst_get_ne m v hat] at hr
      exact ⟨r, hr, hd⟩

theorem keyCone_setInst (m : List Registration) (t0 : Nat) (v : PyVal) (a b : Nat) :
    KeyCone (setInst m t0 v) a b ↔ KeyCone m a b := by
  constructor
  · exact Relation.ReflTransGen.mono (fun x y h => (keyEdge_setInst m t0 v x y).mp h)
  · exact Relation.ReflTransGen.mono (fun x y h => (keyEdge_setInst m t0 v x y).mpr h)

end Depi

namespace Depi

/-- The build loop never constructs a pre-instanced factory-free Singleton
(given that every loop entry keyed at its identity is pre-instanced), and
leaves its registry entry untouched. -/
theorem buildLoop_noconstruct : ∀ (fuel : Nat) (order : List Registration)
    (st st' : ProviderState) (u : Nat) (ru : Registration),
    buildLoopFuel fuel st order = Except.ok st' →
    dictGet st.registry u = some ru → ru.lifetime = Lifetime.singleton →
    ru.factory = Option.none → ru.inst ≠ PyVal.vnone →
    (∀ reg, reg ∈ order → reg.dependency_type = u → reg.inst ≠ PyVal.vnone) →
    countLog st'.log u = countLog st.log u ∧ dictGet st'.registry u = some ru := by
  intro fuel
  induction fuel with
  | zero => intro order st st' u ru h; simp [buildLoopFuel] at h
  | succ n ih =>
    intro order st st' u ru h hu hus huf hui horder
    cases order with
    | nil =>
      simp only [buildLoopFuel, Except.ok.injEq] at h
      subst h
      exact ⟨rfl, hu⟩
    | cons reg rest =>
      by_cases hri : reg.inst = PyVal.vnone
      · have hdep : reg.dependency_type ≠ u := by
          intro he
          exact horder reg (List.mem_cons_self _ _) he hri
        simp only [buildLoopFuel, if_pos hri] at h
        cases hf : reg.factory with
        | some f =>
          simp only [hf] at h
          cases hrf : runFactoryFuel n st reg.dependency_type f with
          | error e => simp only [hrf] at h; exact absurd h (by simp)
          | ok p =>
            simp only [hrf] at h
            have hrf1 : runFactoryFuel n st reg.dependency_type f =
                Except.ok (p.1, p.2) := hrf
            have hlog2 : countLog p.2.log u = countLog st.log u :=
              (resolve_noconstruct n).2.2.2 st reg.dependency_type f p.1 p.2 u ru hrf1
                (Ne.symm hdep) hu hus huf hui
            have hregp : p.2.registry = st.registry := runFactoryFuel_registry hrf1
            have hreg2 : dictGet (setInst p.2.registry reg.dependency_type p.1) u =
                some ru := by
              rw [setInst_get_ne _ _ (Ne.symm hdep), hregp]
              exact hu
            obtain ⟨hlg, hrg⟩ := ih rest _ st' u ru h hreg2 hus huf hui
              (fun r hr he => horder r (List.mem_cons_of_mem _ hr) he)
            exact ⟨hlg.trans hlog2, hrg⟩
        | none =>
          simp only [hf] at h
          cases hact : activateFuel n st reg with
          | error e => simp only [hact] at h; exact absurd h (by simp)
          | ok p =>
            simp only [hact] at h
            have hact1 : activateFuel n st reg = Except.ok (p.1, p.2) := hact
            have hlog2 : countLog p.2.log u = countLog st.log u :=
              (resolve_noconstruct n).2.1 st reg p.1 p.2 u ru hact1 hu hus huf hui
                (Ne.symm hdep)
            have hregp : p.2.registry = st.registry := activateFuel_registry hact1
            have hreg2 : dictGet (setInst p.2.registry reg.dependency_type p.1) u =
                some ru := by
              rw [setInst_get_ne _ _ (Ne.symm hdep), hregp]
              exact hu
            obtain ⟨hlg, hrg⟩ := ih rest _ st' u ru h hreg2 hus huf hui
              (fun r hr he => horder r (List.mem_cons_of_mem _ hr) he)
            exact ⟨hlg.trans hlog2, hrg⟩
      · simp only [buildLoopFuel, if_neg hri] at h
        exact ih rest st st' u ru h hu hus huf hui
          (fun r hr he => horder r (List.mem_cons_of_mem _ hr) he)

/-- The build loop leaves every identity outside the key cones of its
entries untouched: registry entry, cache entry and construction count.
An entry's cone covers its constructor-parameter targets and, for a
resolver-invoking factory, the identity the factory resolves. -/
theorem buildLoop_footprint : ∀ (fuel : Nat) (order : List Registration)
    (st st' : ProviderState) (u : Nat),
    buildLoopFuel fuel st order = Except.ok st' →
    (∀ reg, reg ∈ order → reg.dependency_type ≠ u ∧
      (∀ p, p ∈ reg.constructor_params → ¬ KeyCone st.registry p.dependency_type u) ∧
      (∀ w, reg.factory = some (FactorySpec.resolveId w) → ¬ KeyCone st.registry w u)) →
    dictGet st'.registry u = dictGet st.registry u ∧
    cacheGet st'.singleton_instances u = cacheGet st.singleton_instances u ∧
    countLog st'.log u = countLog st.log u := by
  intro fuel
  induction fuel with
  | zero => intro order st st' u h; simp [buildLoopFuel] at h
  | succ n ih =>
    intro order st st' u h horder
    cases order with
    | nil =>
      simp only [buildLoopFuel, Except.ok.injEq] at h
      subst h
      exact ⟨rfl, rfl, rfl⟩
    | cons reg rest =>
      obtain ⟨hdep, hpcone, hfcone⟩ := horder reg (List.mem_cons_self _ _)
      by_cases hri : reg.inst = PyVal.vnone
      · simp only [buildLoopFuel, if_pos hri] at h
        cases hf : reg.factory with
        | some f =>
          simp only [hf] at h
          cases hrf : runFactoryFuel n st reg.dependency_type f with
          | error e => simp only [hrf] at h; exact absurd h (by simp)
          | ok p =>
            simp only [hrf] at h
            have hrf1 : runFactoryFuel n st reg.dependency_type f =
                Except.ok (p.1, p.2) := hrf
            have hfp := (resolve_footprint n).2.2.2 st reg.dependency_type f p.1 p.2 u
              hrf1 (Ne.symm hdep)
              (fun w hw => hfcone w (by rw [hf, hw]))
            have hregp : p.2.registry = st.registry := runFactoryFuel_registry hrf1
            have hrest := ih rest _ st' u h (by
              intro r hr
              obtain ⟨h1, h2, h3⟩ := horder r (List.mem_cons_of_mem _ hr)
              refine ⟨h1, ?_, ?_⟩
              · intro q hq hc
                have hc2 := (keyCone_setInst p.2.registry reg.dependency_type p.1
                  q.dependency_type u).mp hc
                rw [hregp] at hc2
                exact h2 q hq hc2
              · intro w hw hc
                have hc2 := (keyCone_setInst p.2.registry reg.dependency_type p.1
                  w u).mp hc
                rw [hregp] at hc2
                exact h3 w hw hc2)
            obtain ⟨hg, hca, hlg⟩ := hrest
            refine ⟨?_, ?_, ?_⟩
            · rw [hg]
              simp only [setInst_get_ne _ _ (Ne.symm hdep)]
              rw [hregp]
            · rw [hca]
              simp only [cacheGet_cacheSet_ne _ _ (Ne.symm hdep)]
              exact hfp.1
            · rw [hlg]
              exact hfp.2
        | none =>
          simp only [hf] at h
          cases hact : activateFuel n st reg with
          | error e => simp only [hact] at h; exact absurd h (by simp)
          | ok p =>
            simp only [hact] at h
            have hact1 : activateFuel n st reg = Except.ok (p.1, p.2) := hact
            have hfp := (resolve_footprint n).2.1 st reg p.1 p.2 u hact1
              (Ne.symm hdep) hpcone
            have hregp : p.2.registry = st.registry := activateFuel_registry hact1
            have hrest := ih rest _ st' u h (by
              intro r hr
              obtain ⟨h1, h2, h3⟩ := horder r (List.mem_cons_of_mem _ hr)
              refine ⟨h1, ?_, ?_⟩
              · intro q hq hc
                have hc2 := (keyCone_setInst p.2.registry reg.dependency_type p.1
                  q.dependency_type u).mp hc
                rw [hregp] at hc2
                exact h2 q hq hc2
              · intro w hw hc
                have hc2 := (keyCone_setInst p.2.registry reg.dependency_type p.1
                  w u).mp hc
                rw [hregp] at hc2
                exact h3 w hw hc2)
            obtain ⟨hg, hca, hlg⟩ := hrest
            refine ⟨?_, ?_, ?_⟩
            · rw [hg]
              simp only [setInst_get_ne _ _ (Ne.symm hdep)]
              rw [hregp]
            · rw [hca]
              simp only [cacheGet_cacheSet_ne _ _ (Ne.symm hdep)]
              exact hfp.1
            · rw [hlg]
              exact hfp.2
      · simp only [buildLoopFuel, if_neg hri] at h
        exact ih rest st st' u h
          (fun r hr => horder r (List.mem_cons_of_mem _ hr))

end Depi

namespace Depi

/-- Registration-level reachability projects to key-level reachability on a
well-keyed registry. -/
theorem edge_reach_keyCone {registry : List Registration} (hwf : RegWF registry)
    {a b : Registration} (h : Relation.ReflTransGen (EdgeC registry) a b)
    (ha : a ∈ registry) :
    KeyCone registry a.dependency_type b.dependency_type ∧ b ∈ registry := by
  induction h with
  | refl => exact ⟨Relation.ReflTransGen.refl, ha⟩
  | tail h1 h2 ih =>
    obtain ⟨hcone, hbmem⟩ := ih
    obtain ⟨p, hp, hpd⟩ := h2
    have hcmem := dictGet_mem hpd
    have hckey := dictGet_key hpd
    refine ⟨Relation.ReflTransGen.tail hcone ?_, hcmem⟩
    exact ⟨_, hwf _ hbmem, Or.inl ⟨p, hp, hckey.symm⟩⟩

/-- C7 (amended): `build()` constructs only registrations key-reachable —
through constructor-parameter edges or resolver-invoking-factory edges —
from a Singleton root whose instance slot is empty.  A Singleton registered
with a pre-built instance and no factory is never activated and its
registry entry is untouched (first clause); a Transient or Scoped
registration not key-reachable from any Singleton is not activated, its
registry entry is untouched, and it is not cached (second clause).  (The
provisos are forced by the counterexample: a transient that a Singleton
depends on — through a constructor parameter or through a factory of the
form `lambda p: p.resolve(T)` — IS constructed and mutated at build time,
and a pre-instanced Singleton that carries a factory has that factory run
when a dependent Singleton resolves it during build.) -/
theorem c7_build_frame : ∀ (registry : List Registration) cache al lg fuel st',
    RegWF registry →
    buildFuel fuel ⟨registry, cache, al, lg⟩ = Except.ok st' →
    (∀ u ru, dictGet registry u = some ru → ru.lifetime = Lifetime.singleton →
      ru.factory = Option.none → ru.inst ≠ PyVal.vnone →
      countLog st'.log u = countLog lg u ∧ dictGet st'.registry u = some ru) ∧
    (∀ u ru, dictGet registry u = some ru →
      ru.lifetime = Lifetime.transient ∨ ru.lifetime = Lifetime.scoped →
      ¬ KeyReachableFromSingleton registry u →
      dictGet st'.registry u = some ru ∧
      cacheGet st'.singleton_instances u = cacheGet cache u ∧
      countLog st'.log u = countLog lg u) := by
  intro registry cache al lg fuel st' hwf hbuild
  cases hsort : topologicalSortFuel registry fuel
      (registry.filter (fun d => d.lifetime = Lifetime.singleton)) with
  | error e =>
    simp only [buildFuel, hsort] at hbuild
    exact absurd hbuild (by simp)
  | ok sorted =>
    simp only [buildFuel, hsort] at hbuild
    have hroots : ∀ q, q ∈ registry.filter (fun d => d.lifetime = Lifetime.singleton) →
        q ∈ registry := fun q hq => (List.mem_filter.mp hq).1
    have hfold := topoFold_ok_spec registry fuel
      (registry.filter (fun d => d.lifetime = Lifetime.singleton)) ⟨[], []⟩ sorted
      hroots hsort
    have hgood := hfold.2.2.1 (goodState_init registry)
    have hprov := hfold.2.2.2
    constructor
    · intro u ru hu hus huf hui
      have horder : ∀ reg, reg ∈ sorted.order → reg.dependency_type = u →
          reg.inst ≠ PyVal.vnone := by
        intro reg hreg he
        have hregmem := hgood.mem reg hreg
        have hx := hwf reg hregmem
        rw [he, hu] at hx
        have : ru = reg := Option.some.inj hx
        rw [← this]
        exact hui
      have := buildLoop_noconstruct fuel sorted.order ⟨registry, cache, al, lg⟩ st' u ru
        hbuild hu hus huf hui horder
      exact ⟨this.1, this.2⟩
    · intro u ru hu hlife hreach
      have horder : ∀ reg, reg ∈ sorted.order → reg.dependency_type ≠ u ∧
          (∀ p, p ∈ reg.constructor_params →
            ¬ KeyCone (⟨registry, cache, al, lg⟩ : ProviderState).registry
              p.dependency_type u) ∧
          (∀ w, reg.factory = some (FactorySpec.resolveId w) →
            ¬ KeyCone (⟨registry, cache, al, lg⟩ : ProviderState).registry w u) := by
        intro reg hreg
        have hregmem := hgood.mem reg hreg
        rcases hprov reg hreg with hin | ⟨root, hrootmem0, hrootreach⟩
        · simp at hin
        · have hrootmem := hroots root hrootmem0
          have hrootsing : root.lifetime = Lifetime.singleton := by
            have := (List.mem_filter.mp hrootmem0).2
            simpa using this
          obtain ⟨hconeRoot, _⟩ := edge_reach_keyCone hwf hrootreach hrootmem
          refine ⟨?_, ?_, ?_⟩
          · intro he
            exact hreach ⟨root, hrootmem, hrootsing, by rw [← he]; exact hconeRoot⟩
          · intro p hp hc
            have hstep : KeyEdge registry reg.dependency_type p.dependency_type :=
              ⟨reg, hwf reg hregmem, Or.inl ⟨p, hp, rfl⟩⟩
            exact hreach ⟨root, hrootmem, hrootsing,
              hconeRoot.trans (Relation.ReflTransGen.head hstep hc)⟩
          · intro w hw hc
            have hstep : KeyEdge registry reg.dependency_type w :=
              ⟨reg, hwf reg hregmem, Or.inr hw⟩
            exact hreach ⟨root, hrootmem, hrootsing,
              hconeRoot.trans (Relation.ReflTransGen.head hstep hc)⟩
      have := buildLoop_footprint fuel sorted.order ⟨registry, cache, al, lg⟩ st' u
        hbuild horder
      exact ⟨this.1.trans hu, this.2.1, this.2.2⟩

/-- C7 witness: building over a pre-instanced factory-free singleton leaves
it unconstructed and untouched; building over a registry whose only entry
is a transient leaves that transient unconstructed, untouched and
uncached. -/
theorem c7_witness :
    (countLog (⟨[⟨0, 100, Lifetime.singleton, PyVal.obj 9, Option.none, []⟩], [], 0,
        []⟩ : ProviderState).log 0 = countLog [] 0 ∧
      dictGet (⟨[⟨0, 100, Lifetime.singleton, PyVal.obj 9, Option.none, []⟩], [], 0,
        []⟩ : ProviderState).registry 0 =
        some ⟨0, 100, Lifetime.singleton, PyVal.obj 9, Option.none, []⟩) ∧
    (dictGet (⟨[⟨0, 100, Lifetime.transient, PyVal.vnone, Option.none, []⟩], [], 0,
        []⟩ : ProviderState).registry 0 =
        some ⟨0, 100, Lifetime.transient, PyVal.vnone, Option.none, []⟩ ∧
      cacheGet (⟨[⟨0, 100, Lifetime.transient, PyVal.vnone, Option.none, []⟩], [], 0,
        []⟩ : ProviderState).singleton_instances 0 = cacheGet [] 0 ∧
      countLog (⟨[⟨0, 100, Lifetime.transient, PyVal.vnone, Option.none, []⟩], [], 0,
        []⟩ : ProviderState).log 0 = countLog [] 0) :=
  ⟨(c7_build_frame [⟨0, 100, Lifetime.singleton, PyVal.obj 9, Option.none, []⟩] [] 0 [] 9
      ⟨[⟨0, 100, Lifetime.singleton, PyVal.obj 9, Option.none, []⟩], [], 0, []⟩
      (by decide) rfl).1 0 ⟨0, 100, Lifetime.singleton, PyVal.obj 9, Option.none, []⟩
      rfl rfl rfl (by decide),
    (c7_build_frame [⟨0, 100, Lifetime.transient, PyVal.vnone, Option.none, []⟩] [] 0 [] 9
      ⟨[⟨0, 100, Lifetime.transient, PyVal.vnone, Option.none, []⟩], [], 0, []⟩
      (by decide) rfl).2 0 ⟨0, 100, Lifetime.transient, PyVal.vnone, Option.none, []⟩
      rfl (Or.inl rfl) (by
        rintro ⟨root, hmem, hsing, -⟩
        rw [List.mem_singleton] at hmem
        subst hmem
        exact absurd hsing (by decide))⟩

/-- C7 counterexample: (i) a Transient depended on by a Singleton is
activated during `build()` — twice, in fact — and its stored `instance`
slot is mutated from `None` to a built object; (ii) a Singleton registered
with a pre-built instance but also a factory has that factory run during
`build()` when a dependent Singleton resolves it; (iii) a Singleton whose
factory is `lambda p: p.resolve(U)` has NO constructor-parameter edges at
all (no registration in that registry does), yet `build()` still activates
the Transient `U` — the factory body resolves it — so "only Singletons are
constructed at build" fails even without any constructor-parameter path. -/
theorem c7_counterexample :
    exC7regT.lifetime = Lifetime.transient ∧
    exC7regT.inst = PyVal.vnone ∧
    buildFuel 20 exC7st =
      Except.ok (⟨[⟨0, 100, Lifetime.singleton, PyVal.obj 2, Option.none, [⟨0, 1⟩]⟩,
        ⟨1, 101, Lifetime.transient, PyVal.obj 0, Option.none, []⟩],
        [(1, PyVal.obj 0), (0, PyVal.obj 2)], 3,
        [(Mech.defaultCtor, 0), (Mech.defaultCtor, 1), (Mech.defaultCtor, 1)]⟩ :
          ProviderState) ∧
    countLog [(Mech.defaultCtor, 0), (Mech.defaultCtor, 1), (Mech.defaultCtor, 1)] 1 = 2 ∧
    PyVal.obj 0 ≠ PyVal.vnone ∧
    exC7regS.inst = PyVal.obj 9 ∧
    buildFuel 20 exC7st2 =
      Except.ok (⟨[⟨0, 100, Lifetime.singleton, PyVal.obj 0, Option.none, [⟨0, 1⟩]⟩,
        exC7regS], [(1, PyVal.obj 7), (0, PyVal.obj 0)], 1,
        [(Mech.defaultCtor, 0), (Mech.factoryCall, 1)]⟩ : ProviderState) ∧
    countFact [(Mech.defaultCtor, 0), (Mech.factoryCall, 1)] 1 = 1 ∧
    (1 : Nat) ≠ 0 ∧
    (∀ r, r ∈ exC7st3.registry → r.constructor_params = []) ∧
    exC7regU.lifetime = Lifetime.transient ∧
    exC7regF.factory = some (FactorySpec.resolveId 1) ∧
    buildFuel 20 exC7st3 =
      Except.ok (⟨[⟨0, 100, Lifetime.singleton, PyVal.obj 0,
        some (FactorySpec.resolveId 1), []⟩, exC7regU],
        [(0, PyVal.obj 0)], 1,
        [(Mech.defaultCtor, 1), (Mech.factoryCall, 0)]⟩ : ProviderState) ∧
    countLog [(Mech.defaultCtor, 1), (Mech.factoryCall, 0)] 1 = 1 ∧
    (1 : Nat) ≠ 0 :=
  ⟨rfl, rfl, rfl, rfl, by decide, rfl, rfl, rfl, by decide, by decide, rfl, rfl, rfl,
    rfl, by decide⟩

end Depi
